import Mathlib

/-!
Verification development for the Kaboomer CLI (a scaffolder for KaboomJS games).

The source is embedded shallowly:

* Filesystem paths are lists of components (absolute, rooted at `[]`, which is
  always an existing directory, like `/`).
* The filesystem is an association list from paths to entries; the first
  binding for a key is authoritative (later writes shadow earlier ones).
* `fs/promises` calls used by the source (`stat`-based `exists`, `mkdir`,
  `writeFile`, recursive `rm`) become explicit state transformers that also
  record a trace of the directories created and files written.
* Fallible operations run in `Except (ErrKind × St) St`: a rejected promise
  aborts the rest of the command, carrying the partial state reached.
* The external `git init` process is a parameter (`GitBehavior`): the source's
  `runCommand` resolves with the exit code on the `exit` event (whatever the
  code is) and rejects only on a spawn `error` event.
* Case mapping on characters models JavaScript `toUpperCase`/`toLowerCase`
  restricted to ASCII, which covers every literal the source manipulates.
-/

namespace Kaboomer

/-! ## Strings and paths -/

/-- Split a character list at every occurrence of `sep` (model of
JavaScript `String.prototype.split` with a single-character separator). -/
def splitOnCharAux (sep : Char) : List Char → List Char → List (List Char)
  | [], acc => [acc.reverse]
  | c :: rest, acc =>
      if c == sep then acc.reverse :: splitOnCharAux sep rest []
      else splitOnCharAux sep rest (c :: acc)

/-- Split a string on `/`, as `path.split("/")` does in the source. -/
def splitSlash (s : String) : List String :=
  (splitOnCharAux '/' s.data []).map (fun cs => String.mk cs)

/-- One normalization step of Node's `path.join`: empty and `.` segments are
dropped, `..` pops the last component, anything else is appended. -/
def joinSeg (acc : List String) (seg : String) : List String :=
  if seg = "" then acc
  else if seg = "." then acc
  else if seg = ".." then acc.dropLast
  else acc ++ [seg]

/-- Join a single string argument (possibly containing `/`) onto a base path,
modelling Node's `path.join(base, s)`. -/
def joinPath (base : List String) (s : String) : List String :=
  (splitSlash s).foldl joinSeg base

/-- Model of Node's variadic `path.join(base, s₁, s₂, …)`. -/
def joinMany (base : List String) (segs : List String) : List String :=
  segs.foldl joinPath base

/-! ## The package-name regular expression

`PACKAGE_NAME_REGEX = /^(@[a-z0-9-~][a-z0-9-._~]*\/)?[a-z0-9-~][a-z0-9-._~]*$/`
(src/index.ts line 8). Since neither character class contains `/`, a string
matches iff it is a single identifier, or `@scope/ident` with both pieces
identifiers. -/

/-- First-character class `[a-z0-9-~]`. -/
def isIdentStart (c : Char) : Bool :=
  c.isLower || c.isDigit || c == '-' || c == '~'

/-- Later-character class `[a-z0-9-._~]`. -/
def isIdentTail (c : Char) : Bool :=
  isIdentStart c || c == '.' || c == '_'

/-- Nonempty word over the identifier classes. -/
def matchesIdent : List Char → Bool
  | [] => false
  | c :: rest => isIdentStart c && rest.all isIdentTail

/-- Decision procedure equivalent to `PACKAGE_NAME_REGEX.test`. -/
def packageNameTest (s : String) : Bool :=
  match splitOnCharAux '/' s.data [] with
  | [single] => matchesIdent single
  | [first, second] =>
      match first with
      | '@' :: scope => matchesIdent scope && matchesIdent second
      | _ => false
  | _ => false

/-- Node's `path.basename` restricted to slash-separated names: the last
nonempty piece of the `/`-split (a trailing slash is ignored). -/
def basenameOf (s : String) : String :=
  match ((splitOnCharAux '/' s.data []).filter (fun cs => !cs.isEmpty)).reverse with
  | [] => ""
  | cs :: _ => String.mk cs

/-! ## `add`-command string helpers (part_002 lines 303-309) -/

/-- Model of `capitalize`: `str[0].toUpperCase() + str.substring(1).toLowerCase()`.
On the empty string the source throws (`str[0]` is `undefined`), modelled by
`none`. ASCII case mapping. -/
def capitalize (str : String) : Option String :=
  match str.data with
  | [] => none
  | c :: rest => some (String.mk (c.toUpper :: rest.map Char.toLower))

/-- Aux for `normalizeName`: replace the first occurrence of a hyphen followed
by an ASCII letter (the source regex, hyphen then `[a-zA-Z]`, has no `g` flag,
so only the first match is replaced) by the upper-cased letter. -/
def normalizeNameAux : List Char → List Char
  | [] => []
  | '-' :: c :: rest =>
      if c.isAlpha then c.toUpper :: rest
      else '-' :: normalizeNameAux (c :: rest)
  | c :: rest => c :: normalizeNameAux rest

/-- Model of `normalizeName`: `str.replace(regex, (m) => m[1].toUpperCase())`
where the (non-global) regex matches a hyphen followed by one ASCII letter. -/
def normalizeName (str : String) : String :=
  String.mk (normalizeNameAux str.data)

/-! ## Filesystem model -/

/-- A filesystem entry: a directory, or a file with its byte content. -/
inductive Entry where
  | dir : Entry
  | file (content : String) : Entry
  deriving DecidableEq

/-- Filesystem: association list from absolute paths to entries (first
binding wins). The root `[]` always exists as a directory. -/
abbrev FS := List (List String × Entry)

/-- Model of `stat`: `some` entry when the path exists (the root `[]` always
does), `none` when `stat` would reject. -/
def FS.statD (fs : FS) (p : List String) : Option Entry :=
  if p = [] then some Entry.dir else List.lookup p fs

/-- Whether a path holds a regular file. -/
def FS.isFileB (fs : FS) (p : List String) : Bool :=
  match fs.statD p with
  | some (Entry.file _) => true
  | _ => false

/-- Recursive removal, `rm(path, { recursive: true })`: the path and every
descendant disappear. -/
def FS.rmAll (fs : FS) (p : List String) : FS :=
  fs.filter (fun kv => !(p.isPrefixOf kv.1))

/-- Trace event: a directory actually created, or a file written. -/
inductive Ev where
  | mkdirE (p : List String)
  | writeE (p : List String) (content : String)
  deriving DecidableEq

/-- The path an event touches. -/
def Ev.path : Ev → List String
  | .mkdirE p => p
  | .writeE p _ => p

/-- State threaded through a command: the filesystem plus the write trace. -/
structure St where
  fs : FS
  tr : List Ev

/-- Why a command aborted: a filesystem promise rejected, or the spawned
`git init` process emitted an `error` event. -/
inductive ErrKind where
  | fsFail
  | gitSpawn

/-- Fallible filesystem computation; an error carries the state reached. -/
abbrev FsM := Except (ErrKind × St) St

/-- Model of `mkdir(path)` (no `recursive` option): fails if the path exists
or its parent is not an existing directory. -/
def mkdirOp (s : St) (p : List String) : FsM :=
  match s.fs.statD p with
  | some _ => .error (.fsFail, s)
  | none =>
      match s.fs.statD p.dropLast with
      | some Entry.dir => .ok ⟨(p, Entry.dir) :: s.fs, s.tr ++ [Ev.mkdirE p]⟩
      | _ => .error (.fsFail, s)

/-- Model of `writeFile(path, content)`: overwrites a file, fails when the
parent is not an existing directory or the path is a directory. -/
def writeFileOp (s : St) (p : List String) (c : String) : FsM :=
  match s.fs.statD p.dropLast with
  | some Entry.dir =>
      match s.fs.statD p with
      | some Entry.dir => .error (.fsFail, s)
      | _ => .ok ⟨(p, Entry.file c) :: s.fs, s.tr ++ [Ev.writeE p c]⟩
  | _ => .error (.fsFail, s)

/-- `makeFolders` (src/index.ts lines 16-19) on the reversed path, so the
`dirname` recursion is structural:
`if (!exists(dirname(p))) await makeFolders(dirname(p));`
`if (!exists(p)) await mkdir(p);` -/
def makeFoldersRev (s : St) : List String → FsM
  | [] => .ok s
  | x :: xs => do
      let s1 ← if (s.fs.statD xs.reverse).isSome then .ok s else makeFoldersRev s xs
      if (s1.fs.statD (xs.reverse ++ [x])).isSome then .ok s1
      else mkdirOp s1 (xs.reverse ++ [x])

/-- `makeFolders(path)`: create the path and any missing ancestors the
`dirname` walk reaches. -/
def makeFoldersM (s : St) (p : List String) : FsM :=
  makeFoldersRev s p.reverse

/-- `makeFile(path, cwd, content)` (src/index.ts lines 21-25): ensure the
parent directory chain, then write the file. (The `console.log` progress
line is reporting only and is not modelled.) -/
def makeFileM (s : St) (p : List String) (c : String) : FsM := do
  let s1 ← makeFoldersM s p.dropLast
  writeFileOp s1 p c

/-- Behaviour of the spawned `git init` process: it either emits `exit` with
some code, or emits a spawn `error`. -/
inductive GitBehavior where
  | exitCode (c : Nat)
  | spawnError

/-- `runCommand` (src/index.ts lines 27-39): the promise resolves with the
exit code on the `exit` event — even a non-zero one — and rejects only on a
spawn `error` event. -/
def runCommandM (git : GitBehavior) (s : St) : Except (ErrKind × St) (St × Nat) :=
  match git with
  | .exitCode c => .ok (s, c)
  | .spawnError => .error (.gitSpawn, s)

/-! ## File contents emitted by `init` (src/index.ts, the 0.1.6 revision)

Structured payloads passed through `JSON.stringify(v, null, 4)` are embedded
as the exact serialized text (insertion-ordered keys, four-space indent).
Literal braces are written with the `\x7b`/`\x7d` escapes. -/

/-- `public/manifest.json` (src/index.ts lines 109-133). -/
def manifestContent : String :=
  "\x7b\n    \"lang\": \"en-us\",\n    \"name\": \"Kaboomer Game\",\n    \"short_name\": \"Kaboomer Game\",\n    \"description\": \"A game generated using Kaboomer.\",\n    \"start_url\": \"/\",\n    \"background_color\": \"#a83a32\",\n    \"theme_color\": \"#a83a32\",\n    \"orientation\": \"landscape\",\n    \"display\": \"standalone\",\n    \"icons\": [\n        \x7b\n            \"src\": \"https://kaboomjs.com/static/img/k.png\",\n            \"sizes\": \"160x160\"\n        \x7d\n    ]\n\x7d"

/-- `src/scenes/main.ts` of the `empty` template (src/index.ts lines 48-50). -/
def emptyMainScene : String :=
  "export default function scene() \x7b\n    add([ text(\"Hello, World!\"), pos(width() / 2, height() / 2) ]);\n\x7d"

/-- `src/objects/message.ts` of the `basic` template (src/index.ts lines 55-61). -/
def basicMessageObject : String :=
  "export default function message(content: string) \x7b\n    return make([\n        text(content, \x7b size: 50 \x7d), //\n        anchor(\"center\"),\n        pos(width() / 2, height() / 2),\n    ]);\n\x7d"

/-- `src/scenes/main.ts` of the `basic` template (src/index.ts lines 62-68). -/
def basicMainScene : String :=
  "import message from \"@objects/message\";\n\nexport default function scene() \x7b\n    add(message(\"Click to go to scene 2.\"));\n\n    onClick(() => go(\"other\"));\n\x7d"

/-- `src/scenes/other.ts` of the `basic` template (src/index.ts lines 69-75). -/
def basicOtherScene : String :=
  "import message from \"@objects/message\";\n\nexport default function scene() \x7b\n    add(message(\"Click to go to scene 1.\"));\n\n    onClick(() => go(\"main\"));\n\x7d"

/-- `src/index.ts` of the generated project (src/index.ts lines 146-184). -/
def srcIndexContent : String :=
  "// This is the main file that handles loading scenes and importing kaboom.\n// You never modify the loadScenes function, but feel free to load some\n// global assets using loadSprite, etc.\n\nimport kaboom from \"kaboom\";\nkaboom();\n\n// You can add your global asset loading calls here, if you only use an asset in a single scene, then load it in there.\n// For example:\n// import playerSpriteURL from \"@assets/player.png\";\n// loadSprite(\"player\", playerSpriteURL);\n\nasync function loadScenes() \x7b\n    // Get all scene files inside ./scenes\n    const scenes = import.meta.glob(\"./scenes/*.ts\");\n\n    // A basic regex to match any .ts file inside ./scenes\n    const SCENE_FILE = /\\.\\/scenes\\/([^.]+)\\.ts/;\n\n    for (const scenePath in scenes) \x7b\n        // Define the scene.\n        const sceneName = scenePath.replace(SCENE_FILE, \"$1\");\n\n        scene(sceneName, async (props: any) => \x7b\n            const sceneInit: \x7b default: (props: any) => any \x7d = (await scenes[scenePath]()) as any;\n\n            sceneInit.default(props);\n        \x7d);\n    \x7d\n\n    go(\"main\");\n\x7d\n\nloadScenes();\n"

/-- `src/constants.ts` (src/index.ts lines 186-192). -/
def constantsContent : String :=
  "// You can define constants here, that you can later access by importing '@constants'\n\n"

/-- `index.html` (src/index.ts lines 194-216). -/
def indexHtmlContent : String :=
  "<!DOCTYPE html>\n<html lang=\"en\">\n<head>\n    <meta charset=\"UTF-8\">\n    <meta name=\"viewport\" content=\"width=device-width, initial-scale=1.0\">\n    <link rel=\"manifest\" href=\"manifest.json\">\n    <title>Kaboomer Project</title>\n    <style>\n        html, body \x7b\n            height: 100vh;\n            margin: 0;\n            overflow: hidden;\n        \x7d\n    </style>\n</head>\n<body>\n    <script type=\"module\" src=\"src/index.ts\"></script>\n</body>\n</html>"

/-- `.prettierrc` (src/index.ts lines 218-229). -/
def prettierrcContent : String :=
  "\x7b\n    \"tabWidth\": 4,\n    \"printWidth\": 120\n\x7d"

/-- `.gitignore` (src/index.ts lines 232-236). -/
def gitignoreContent : String :=
  "node_modules\npackage-lock.json\ndist"

/-- The name declared by `package.json`:
`PACKAGE_NAME_REGEX.test(root) ? root : "unnamed-game"` (src/index.ts line 245).
Note the test is applied to the raw `root` argument. -/
def packageNameOf (root : String) : String :=
  if packageNameTest root then root else "unnamed-game"

/-- `package.json` (src/index.ts lines 240-264), as a function of the `root`
argument. -/
def packageJsonContent (root : String) : String :=
  "\x7b\n    \"name\": \"" ++ packageNameOf root ++
  "\",\n    \"version\": \"0.0.1\",\n    \"description\": \"A project scaffolded by Kaboomer.\",\n    \"main\": \"dist/index.js\",\n    \"scripts\": \x7b\n        \"dev\": \"vite .\",\n        \"start\": \"vite build && vite preview\",\n        \"format\": \"prettier -w src/**\"\n    \x7d,\n    \"type\": \"module\",\n    \"dependencies\": \x7b\n        \"kaboom\": \"latest\"\n    \x7d,\n    \"devDependencies\": \x7b\n        \"vite\": \"latest\",\n        \"prettier\": \"latest\"\n    \x7d,\n    \"keywords\": [],\n    \"author\": \"\",\n    \"license\": \"ISC\"\n\x7d"

/-- `tsconfig.json` (src/index.ts lines 266-289). -/
def tsconfigContent : String :=
  "\x7b\n    \"compilerOptions\": \x7b\n        \"strict\": true,\n        \"lib\": [\n            \"DOM\",\n            \"ESNext\"\n        ],\n        \"target\": \"ESNext\",\n        \"module\": \"ESNext\",\n        \"types\": [\n            \"vite/client\",\n            \"./node_modules/kaboom/dist/global.d.ts\"\n        ],\n        \"moduleResolution\": \"Bundler\",\n        \"paths\": \x7b\n            \"@assets/*\": [\n                \"./assets/*\"\n            ],\n            \"@components/*\": [\n                \"./src/components/*\"\n            ],\n            \"@objects/*\": [\n                \"./src/objects/*\"\n            ],\n            \"@constants\": [\n                \"./src/constants.ts\"\n            ]\n        \x7d\n    \x7d\n\x7d"

/-- `vite.config.js` (src/index.ts lines 291-308). -/
def viteConfigContent : String :=
  "import \x7b fileURLToPath, URL \x7d from \"url\";\nimport \x7b defineConfig \x7d from \"vite\";\n\nexport default defineConfig(\x7b\n    resolve: \x7b\n        alias: \x7b\n            \"@assets\": fileURLToPath(new URL(\"./assets\", import.meta.url)),\n            \"@components\": fileURLToPath(new URL(\"./src/components\", import.meta.url)),\n            \"@objects\": fileURLToPath(new URL(\"./src/objects\", import.meta.url)),\n            \"@constants\": fileURLToPath(new URL(\"./src/constants.ts\", import.meta.url)),\n        \x7d,\n    \x7d,\n\x7d);\n"

/-! ## The template registry (src/index.ts lines 43-77) -/

/-- A template entry's payload: `null` (directory placeholder) or literal
text. (The source's template table contains no structured payloads; the
`JSON.stringify` branch of the expansion loop is dead code for it.) -/
inductive TVal where
  | dirOnly
  | text (content : String)

/-- The closed template enumeration of the 0.1.6 revision. -/
inductive TemplateName where
  | empty
  | basic

/-- The template registry, in `Object.entries` (insertion) order. -/
def templates : TemplateName → List (String × TVal)
  | .empty =>
      [("assets", TVal.dirOnly),
       ("src/objects", TVal.dirOnly),
       ("src/components", TVal.dirOnly),
       ("src/scenes/main.ts", TVal.text emptyMainScene)]
  | .basic =>
      [("assets", TVal.dirOnly),
       ("src/components", TVal.dirOnly),
       ("src/objects/message.ts", TVal.text basicMessageObject),
       ("src/scenes/main.ts", TVal.text basicMainScene),
       ("src/scenes/other.ts", TVal.text basicOtherScene)]

/-! ## The `init` action (src/index.ts lines 79-318)

The body after the collision check is a straight line of awaited calls.  It
is embedded as a script of steps relative to the project root, executed in
order; `join(projectRoot, seg₁, …)` with the fixed, slash-free literal
segments used there equals list append, and the template loop's
`join(projectRoot, ...path.split("/"))` equals appending the split path. -/

/-- Options of `kaboomer init` (defaults: `force = false`, `nogit = false`,
`template = basic`). -/
structure InitOpts where
  force : Bool
  template : TemplateName
  nogit : Bool

/-- One awaited call of the `init` body, relative to the project root. -/
inductive SStep where
  | mkTree (rel : List String)
  | putFile (rel : List String) (content : String)
  | gitInit

/-- Template expansion (src/index.ts lines 137-144): a `null` payload becomes
`makeFolders`, a string payload becomes `makeFile`. -/
def templateStep : String × TVal → SStep
  | (path, TVal.dirOnly) => SStep.mkTree (splitSlash path)
  | (path, TVal.text c) => SStep.putFile (splitSlash path) c

/-- The straight-line body of `init` after `makeFolders(projectRoot)`, in
source order (src/index.ts lines 109-308). -/
def initScript (root : String) (opts : InitOpts) : List SStep :=
  [SStep.putFile ["public", "manifest.json"] manifestContent,
   SStep.mkTree ["assets"]]
  ++ (templates opts.template).map templateStep
  ++ [SStep.putFile ["src", "index.ts"] srcIndexContent,
      SStep.putFile ["src", "constants.ts"] constantsContent,
      SStep.putFile ["index.html"] indexHtmlContent,
      SStep.putFile [".prettierrc"] prettierrcContent]
  ++ (if opts.nogit then []
      else [SStep.putFile [".gitignore"] gitignoreContent, SStep.gitInit])
  ++ [SStep.putFile ["package.json"] (packageJsonContent root),
      SStep.putFile ["tsconfig.json"] tsconfigContent,
      SStep.putFile ["vite.config.js"] viteConfigContent]

/-- Execute script steps in order; any rejected promise aborts the rest. -/
def runScript (git : GitBehavior) (base : List String) (s : St) : List SStep → FsM
  | [] => .ok s
  | SStep.mkTree y :: rest => do
      let s1 ← makeFoldersM s (base ++ y)
      runScript git base s1 rest
  | SStep.putFile y c :: rest => do
      let s1 ← makeFileM s (base ++ y) c
      runScript git base s1 rest
  | SStep.gitInit :: rest =>
      match runCommandM git s with
      | .ok (s1, _code) => runScript git base s1 rest
      | .error e => .error e

/-- Result of one `init` invocation: `process.exit(1)` at the collision
check, an aborted run (with the partial state reached), or success. -/
inductive InitOutcome where
  | exit1 (s : St)
  | failed (k : ErrKind) (s : St)
  | done (s : St)

/-- Convert a finished run into an outcome. -/
def finishInit : FsM → InitOutcome
  | .ok s => InitOutcome.done s
  | .error (k, s) => InitOutcome.failed k s

/-- `makeFolders(projectRoot)` (line 107) followed by the straight-line body. -/
def scaffold (git : GitBehavior) (pr : List String) (root : String)
    (opts : InitOpts) (s : St) : FsM := do
  let s1 ← makeFoldersM s pr
  runScript git pr s1 (initScript root opts)

/-- The `init` action (src/index.ts lines 90-318): resolve
`projectRoot = join(process.cwd(), root)`, run the collision check
(lines 93-99), then scaffold. -/
def initAction (fs : FS) (cwd : List String) (root : String)
    (opts : InitOpts) (git : GitBehavior) : InitOutcome :=
  let pr := joinPath cwd root
  if (fs.statD pr).isSome then
    if opts.force = false then InitOutcome.exit1 ⟨fs, []⟩
    else finishInit (scaffold git pr root opts ⟨fs.rmAll pr, []⟩)
  else finishInit (scaffold git pr root opts ⟨fs, []⟩)

/-! ## The `add` action (part_002 lines 311-370) -/

/-- Scene stub written by `add scene` (part_002 lines 330-336). -/
def sceneStub (v : String) : String :=
  "export default function " ++ v ++ "() \x7b\n    \n\x7d"

/-- Object stub written by `add object` (part_002 lines 338-346). -/
def objectStub (v : String) : String :=
  "export default function " ++ v ++ "() \x7b\n    return make([\n        \n    ]);\n\x7d"

/-- Component stub written by `add component` (part_002 lines 348-368),
interpolating `variableName`, the raw `name`, and `capitalize(variableName)`. -/
def componentStub (v name cap : String) : String :=
  "import type \x7b Comp, GameObj \x7d from \"kaboom\";\n\nexport default function " ++ v ++
  "() \x7b\n    return \x7b\n        id: \"" ++ name ++
  "\",\n        require: [],\n    \x7d satisfies Comp & ThisType<GameObj> & Record<string, any>;\n    // To fully type `this` inside component you will need to\n    // include their respective Comp variants inside `GameObj<...>`\n    // For example if you have: `require: [ \"pos\" ]` you will need to add\n    // `PosComp` to `GameObj<...>`\n\x7d\n\nexport type " ++
  cap ++ "Comp = \x7b [K in Exclude<keyof ReturnType<typeof " ++ v ++
  ">, keyof Comp>]: ReturnType<typeof " ++ v ++ ">[K] \x7d;\n"

/-- Result of one `add` invocation. -/
inductive AddOutcome where
  | exit1 (s : St)
  | failed (s : St)
  | done (s : St)

/-- Convert a finished `add` run into an outcome. -/
def finishAdd : FsM → AddOutcome
  | .ok s => AddOutcome.done s
  | .error (_, s) => AddOutcome.failed s

/-- The `add` action: validate `type`, require `src/scenes` under the
current directory, then write exactly one stub file.  `capitalize` throwing
on the empty string (component branch) is modelled by `AddOutcome.failed`. -/
def addAction (fs : FS) (cwd : List String) (ty name : String) : AddOutcome :=
  if (["scene", "object", "component"].contains ty) = false then
    AddOutcome.exit1 ⟨fs, []⟩
  else if (fs.statD (joinMany cwd ["src", "scenes"])).isSome = false then
    AddOutcome.exit1 ⟨fs, []⟩
  else
    let variableName := normalizeName name
    if ty == "scene" then
      finishAdd (makeFileM ⟨fs, []⟩ (joinMany cwd ["src", "scenes", name ++ ".ts"])
        (sceneStub variableName))
    else if ty == "object" then
      finishAdd (makeFileM ⟨fs, []⟩ (joinMany cwd ["src", "objects", name ++ ".ts"])
        (objectStub variableName))
    else
      match capitalize variableName with
      | none => AddOutcome.failed ⟨fs, []⟩
      | some cap =>
          finishAdd (makeFileM ⟨fs, []⟩ (joinMany cwd ["src", "components", name ++ ".ts"])
            (componentStub variableName name cap))

/-! ## Subtree semantics

To reason about a whole `init` run over an arbitrary ambient filesystem, the
content of the project-root subtree is tracked by a duplicate-free
association list over paths relative to the root, with `[]` denoting the
root directory itself.  `mfMRev`/`wfM` replay `makeFolders`/`writeFile` on
this abstract subtree; `scriptM` replays a whole script. -/

/-- Set a binding, removing any previous binding of the same key. -/
def setEntry (M : FS) (k : List String) (e : Entry) : FS :=
  (k, e) :: M.filter (fun kv => !(kv.1 == k))

/-- Replay of `makeFolders` on the subtree map (argument reversed, as in
`makeFoldersRev`); `none` when the corresponding run would reject. -/
def mfMRev (M : FS) : List String → Option FS
  | [] => some M
  | x :: xs => do
      let M1 ← if (FS.statD M xs.reverse).isSome then some M else mfMRev M xs
      match FS.statD M1 (xs.reverse ++ [x]) with
      | some _ => some M1
      | none =>
          match FS.statD M1 ((xs.reverse ++ [x]).dropLast) with
          | some Entry.dir => some (setEntry M1 (xs.reverse ++ [x]) Entry.dir)
          | _ => none

/-- Replay of `makeFolders` on the subtree map. -/
def mfM (M : FS) (y : List String) : Option FS :=
  mfMRev M y.reverse

/-- Replay of `writeFile` on the subtree map. -/
def wfM (M : FS) (y : List String) (c : String) : Option FS :=
  match FS.statD M y.dropLast with
  | some Entry.dir =>
      match FS.statD M y with
      | some Entry.dir => none
      | _ => some (setEntry M y (Entry.file c))
  | _ => none

/-- Replay of `makeFile` on the subtree map. -/
def mfileM (M : FS) (y : List String) (c : String) : Option FS := do
  let M1 ← mfM M y.dropLast
  wfM M1 y c

/-- Replay of a whole script on the subtree map. -/
def scriptM (git : GitBehavior) (M : FS) : List SStep → Option FS
  | [] => some M
  | SStep.mkTree y :: rest => do scriptM git (← mfM M y) rest
  | SStep.putFile y c :: rest => do scriptM git (← mfileM M y c) rest
  | SStep.gitInit :: rest =>
      match git with
      | .exitCode _ => scriptM git M rest
      | .spawnError => none

/-- The subtree produced by a successful `init` run, relative to the root. -/
def finalM (root : String) (opts : InitOpts) (git : GitBehavior) : FS :=
  (scriptM git [] (initScript root opts)).getD []

/-- Keys of the file entries of a subtree map. -/
def fileKeys (M : FS) : List (List String) :=
  M.filterMap (fun kv =>
    match kv.2 with
    | Entry.file _ => some kv.1
    | Entry.dir => none)

/-- The file set `init` is specified to produce, relative to the root:
the fixed auxiliary files plus the chosen template's file entries (and the
ignore-file unless `nogit`). -/
def expectedFiles (t : TemplateName) (nogit : Bool) : List (List String) :=
  [["public", "manifest.json"]]
  ++ (match t with
      | TemplateName.empty => [["src", "scenes", "main.ts"]]
      | TemplateName.basic =>
          [["src", "objects", "message.ts"],
           ["src", "scenes", "main.ts"],
           ["src", "scenes", "other.ts"]])
  ++ [["src", "index.ts"], ["src", "constants.ts"], ["index.html"], [".prettierrc"]]
  ++ (if nogit then [] else [[".gitignore"]])
  ++ [["package.json"], ["tsconfig.json"], ["vite.config.js"]]

/-! ## Predicates and auxiliary definitions used by the statements -/

/-- The state carried by a run result, successful or not. -/
def resSt : FsM → St
  | .ok s => s
  | .error (_, s) => s

/-- The state carried by an `init` outcome. -/
def outSt : InitOutcome → St
  | InitOutcome.exit1 s => s
  | InitOutcome.failed _ s => s
  | InitOutcome.done s => s

/-- Every existing path on the prefix chain of `p` is a directory (so the
chain can be completed by `mkdir` calls). -/
def dirFree (fs : FS) (p : List String) : Prop :=
  ∀ q, q <+: p → fs.statD q = none ∨ fs.statD q = some Entry.dir

/-- Relation between the ambient filesystem of a running scaffold and the
abstract subtree map `M` of the project root `b`: inside the subtree the
filesystem agrees with `M` (relative paths, `[]` meaning `b` itself, a
directory); outside it agrees with the snapshot `fs1` taken right after the
root was created; and the root's parent is a directory. -/
def SubInv (b : List String) (fs1 : FS) (M : FS) (s : St) : Prop :=
  (∀ z : List String, FS.statD s.fs (b ++ z) = FS.statD M z)
  ∧ (∀ q : List String, ¬ b <+: q → FS.statD s.fs q = FS.statD fs1 q)
  ∧ FS.statD s.fs b.dropLast = some Entry.dir

/-- Where an `init` write event is allowed to land: created directories lie
on the root's own ancestor chain or inside its subtree, written files lie
strictly inside the subtree. -/
def WithinRoot (pr : List String) : Ev → Prop
  | Ev.mkdirE q => q <+: pr ∨ pr <+: q
  | Ev.writeE q _ => ∃ y, y ≠ [] ∧ q = pr ++ y

/-- Well-formedness of a script: files are only written at nonempty
relative paths. -/
def stepsOkW : List SStep → Bool
  | [] => true
  | SStep.mkTree _ :: rest => stepsOkW rest
  | SStep.putFile y _ :: rest => !y.isEmpty && stepsOkW rest
  | SStep.gitInit :: rest => stepsOkW rest

/-- The steps of `initScript` that precede `git init` when `nogit` is unset. -/
def preGit (root : String) (t : TemplateName) : List SStep :=
  [SStep.putFile ["public", "manifest.json"] manifestContent,
   SStep.mkTree ["assets"]]
  ++ (templates t).map templateStep
  ++ [SStep.putFile ["src", "index.ts"] srcIndexContent,
      SStep.putFile ["src", "constants.ts"] constantsContent,
      SStep.putFile ["index.html"] indexHtmlContent,
      SStep.putFile [".prettierrc"] prettierrcContent,
      SStep.putFile [".gitignore"] gitignoreContent]

/-- The steps of `initScript` that follow `git init` when `nogit` is unset. -/
def postGit (root : String) : List SStep :=
  [SStep.putFile ["package.json"] (packageJsonContent root),
   SStep.putFile ["tsconfig.json"] tsconfigContent,
   SStep.putFile ["vite.config.js"] viteConfigContent]

/-- The subtree reached right before `git init` runs (when `nogit` is unset). -/
def preGitM (root : String) (t : TemplateName) : FS :=
  (scriptM GitBehavior.spawnError [] (preGit root t)).getD []

/-- The template-independent auxiliary files other than the package
descriptor, with their (invocation-independent) contents. -/
def auxFixedContents : List (List String × String) :=
  [(["public", "manifest.json"], manifestContent),
   (["index.html"], indexHtmlContent),
   (["src", "index.ts"], srcIndexContent),
   (["src", "constants.ts"], constantsContent),
   ([".prettierrc"], prettierrcContent),
   (["tsconfig.json"], tsconfigContent),
   (["vite.config.js"], viteConfigContent)]

/-- What a successful `makeFolders` run guarantees: the target is a
directory, its parent too, nothing off the target's prefix chain changed,
on-chain paths are unchanged or freshly created directories, every on-chain
path now exists unless the walk was cut short by an existing strict
descendant on the chain, and the trace grew only by on-chain `mkdir`s. -/
structure RootOut (s : St) (p : List String) (s' : St) : Prop where
  rootDir : FS.statD s'.fs p = some Entry.dir
  parentDir : p ≠ [] → FS.statD s'.fs p.dropLast = some Entry.dir
  outside : ∀ q, ¬ q <+: p → FS.statD s'.fs q = FS.statD s.fs q
  chain : ∀ q, q <+: p → FS.statD s'.fs q = FS.statD s.fs q ∨
      (FS.statD s.fs q = none ∧ FS.statD s'.fs q = some Entry.dir)
  covered : ∀ q, q <+: p → (FS.statD s'.fs q).isSome = true ∨
      ∃ d, q <+: d ∧ q ≠ d ∧ d <+: p ∧ (FS.statD s.fs d).isSome = true
  evs : ∃ Δ, s'.tr = s.tr ++ Δ ∧ ∀ e ∈ Δ, ∃ q, q ≠ [] ∧ q <+: p ∧ e = Ev.mkdirE q

/-! ## Association-list and path lemmas -/

lemma lookup_cons_self (k : List String) (e : Entry) (M : FS) :
    List.lookup k ((k, e) :: M) = some e := by
  simp [List.lookup]

lemma lookup_cons_ne {k k' : List String} (h : k ≠ k') (e : Entry) (M : FS) :
    List.lookup k ((k', e) :: M) = List.lookup k M := by
  simp only [List.lookup]
  rw [show (k == k') = false from beq_eq_false_iff_ne.mpr h]

lemma lookup_filter (P : List String → Bool) (fs : FS) (q : List String) :
    List.lookup q (fs.filter (fun kv => P kv.1)) =
      if P q then List.lookup q fs else none := by
  induction fs with
  | nil => by_cases hp : P q <;> simp [hp]
  | cons kv t ih =>
      obtain ⟨k, e⟩ := kv
      by_cases hq : q = k
      · subst hq
        by_cases hp : P q
        · simp [List.filter_cons, hp, lookup_cons_self]
        · simp only [List.filter_cons, hp, Bool.false_eq_true, if_neg, ite_false]
          rw [ih, if_neg (by simp [hp])]
      · by_cases hp : P k
        · simp only [List.filter_cons, hp, ite_true]
          rw [lookup_cons_ne hq, lookup_cons_ne hq, ih]
        · simp only [List.filter_cons, hp, Bool.false_eq_true, ite_false]
          rw [ih, lookup_cons_ne hq]

lemma statD_cons (fs : FS) (k q : List String) (e : Entry) (hk : k ≠ []) :
    FS.statD ((k, e) :: fs) q = if q = k then some e else FS.statD fs q := by
  by_cases hq : q = []
  · subst hq
    rw [if_neg (fun h => hk h.symm)]
    simp [FS.statD]
  · by_cases hqk : q = k
    · subst hqk
      simp [FS.statD, hq, lookup_cons_self]
    · rw [if_neg hqk]
      simp only [FS.statD, hq, if_neg, ite_false]
      exact lookup_cons_ne hqk e fs

lemma statD_setEntry (M : FS) (k : List String) (e : Entry) (q : List String) (hk : k ≠ []) :
    FS.statD (setEntry M k e) q = if q = k then some e else FS.statD M q := by
  unfold setEntry
  rw [statD_cons _ _ _ _ hk]
  by_cases hqk : q = k
  · simp [hqk]
  · rw [if_neg hqk, if_neg hqk]
    by_cases hq : q = []
    · simp [FS.statD, hq]
    · simp only [FS.statD, hq, ite_false]
      rw [lookup_filter (fun x => !(x == k))]
      rw [show (!(q == k)) = true by simp [hqk]]
      simp

lemma statD_rmAll (fs : FS) (p q : List String) (hq : q ≠ []) :
    FS.statD (fs.rmAll p) q = if p <+: q then none else FS.statD fs q := by
  unfold FS.rmAll
  simp only [FS.statD, hq, ite_false]
  rw [lookup_filter (fun x => !(p.isPrefixOf x))]
  by_cases h : p <+: q
  · rw [if_pos h, if_neg]
    simp [List.isPrefixOf_iff_prefix, h]
  · rw [if_neg h, if_pos]
    simp only [Bool.not_eq_true']
    exact Bool.eq_false_iff.mpr (fun hh => h (List.isPrefixOf_iff_prefix.mp hh))

lemma rmAll_idem (fs : FS) (p : List String) :
    (fs.rmAll p).rmAll p = fs.rmAll p := by
  unfold FS.rmAll
  rw [List.filter_filter]
  simp

lemma prefix_concat_cases {q l : List String} {a : String} (h : q <+: l ++ [a]) :
    q <+: l ∨ q = l ++ [a] := by
  rcases List.prefix_or_prefix_of_prefix h (List.prefix_append l [a]) with h1 | h1
  · exact Or.inl h1
  · obtain ⟨t, rfl⟩ := h1
    have ht : t <+: [a] := (List.prefix_append_right_inj l).mp h
    rcases t with _ | ⟨x, t'⟩
    · exact Or.inl (by simp)
    · obtain ⟨u, hu⟩ := ht
      simp only [List.cons_append] at hu
      obtain ⟨hx, hrest⟩ := List.cons.inj hu
      obtain ⟨ht', -⟩ := List.append_eq_nil.mp hrest
      subst hx; subst ht'
      exact Or.inr rfl

lemma not_append_prefix {b y : List String} (hy : y ≠ []) : ¬ (b ++ y <+: b) := by
  intro h
  have hlen := h.length_le
  rw [List.length_append] at hlen
  have : y.length = 0 := by omega
  exact hy (List.eq_nil_of_length_eq_zero this)

lemma append_ne_of_ne_nil {b y : List String} (hy : y ≠ []) : b ++ y ≠ b := by
  intro h
  exact hy (List.append_right_eq_self.mp h)

lemma append_ne_nil_left {b y : List String} (hy : y ≠ []) : b ++ y ≠ [] := by
  simp [hy]

lemma dropLast_ne_append {b y : List String} (hy : y ≠ []) : b.dropLast ≠ b ++ y := by
  intro h
  have h1 : b.dropLast.length = b.length - 1 := List.length_dropLast b
  have h2 : (b ++ y).length = b.length + y.length := List.length_append b y
  have h3 : y.length ≠ 0 := fun hz => hy (List.eq_nil_of_length_eq_zero hz)
  rw [h, h2] at h1
  omega

lemma prefix_cases_of_prefix_append {q b y : List String} (h : q <+: b ++ y) :
    q <+: b ∨ b <+: q :=
  List.prefix_or_prefix_of_prefix h (List.prefix_append b y)

/-! ## `makeFolders` lemmas -/

lemma except_bind_ok {ε α β : Type} (a : α) (f : α → Except ε β) :
    (Except.ok a : Except ε α) >>= f = f a := rfl

lemma except_bind_err {ε α β : Type} (e : ε) (f : α → Except ε β) :
    (Except.error e : Except ε α) >>= f = Except.error e := rfl


lemma makeFoldersRev_cons (s : St) (x : String) (xs : List String) :
    makeFoldersRev s (x :: xs) =
      ((if (FS.statD s.fs xs.reverse).isSome = true then (.ok s : FsM)
        else makeFoldersRev s xs) >>= fun s1 =>
        if (FS.statD s1.fs (xs.reverse ++ [x])).isSome = true then (.ok s1 : FsM)
        else mkdirOp s1 (xs.reverse ++ [x])) := by
  by_cases h : (FS.statD s.fs xs.reverse).isSome = true
  · simp only [makeFoldersRev, h, if_true, except_bind_ok]
  · simp only [makeFoldersRev, h, Bool.false_eq_true, if_false]

lemma makeFolders_noop (s : St) (p : List String)
    (h : ∀ q, q <+: p → (FS.statD s.fs q).isSome = true) :
    makeFoldersM s p = .ok s := by
  unfold makeFoldersM
  cases hp : p.reverse with
  | nil => rfl
  | cons x xs =>
      have hpx : p = xs.reverse ++ [x] := by
        rw [← List.reverse_reverse p, hp, List.reverse_cons]
      have h1 : (FS.statD s.fs xs.reverse).isSome = true := by
        apply h; rw [hpx]; exact List.prefix_append xs.reverse [x]
      have h2 : (FS.statD s.fs (xs.reverse ++ [x])).isSome = true := by
        apply h; rw [hpx]
      rw [makeFoldersRev_cons, if_pos h1, except_bind_ok, if_pos h2]

lemma makeFoldersRev_root : ∀ (r : List String) (s : St), dirFree s.fs r.reverse →
    ∃ s', makeFoldersRev s r = .ok s' ∧ RootOut s r.reverse s' := by
  intro r
  induction r with
  | nil =>
      intro s _
      refine ⟨s, rfl, ?_, ?_, ?_, ?_, ?_, ⟨[], by simp, by simp⟩⟩
      · simp [FS.statD]
      · intro hne; exact absurd rfl hne
      · intro q _; rfl
      · intro q _; exact Or.inl rfl
      · intro q hq
        rw [List.reverse_nil] at hq
        rw [List.prefix_nil.mp hq]
        simp [FS.statD]
  | cons x xs ih =>
      intro s hdf
      rw [List.reverse_cons] at hdf ⊢
      have hDpref : xs.reverse <+: xs.reverse ++ [x] := List.prefix_append xs.reverse [x]
      have hPne : xs.reverse ++ [x] ≠ [] := append_ne_nil_left (by simp)
      have hPdrop : (xs.reverse ++ [x]).dropLast = xs.reverse := List.dropLast_concat
      have hnPD : ¬ (xs.reverse ++ [x] <+: xs.reverse) := not_append_prefix (by simp)
      have hDneP : xs.reverse ≠ xs.reverse ++ [x] :=
        fun hh => append_ne_of_ne_nil (b := xs.reverse) (y := [x]) (by simp) hh.symm
      -- Phase 1: ensure the parent chain.
      have phase1 : ∃ s1,
          (if (FS.statD s.fs xs.reverse).isSome = true then (.ok s : FsM)
           else makeFoldersRev s xs) = .ok s1 ∧
          FS.statD s1.fs xs.reverse = some Entry.dir ∧
          (∀ q, ¬ q <+: xs.reverse → FS.statD s1.fs q = FS.statD s.fs q) ∧
          (∀ q, q <+: xs.reverse → FS.statD s1.fs q = FS.statD s.fs q ∨
              (FS.statD s.fs q = none ∧ FS.statD s1.fs q = some Entry.dir)) ∧
          (∀ q, q <+: xs.reverse → (FS.statD s1.fs q).isSome = true ∨
              ∃ d, q <+: d ∧ q ≠ d ∧ d <+: xs.reverse ∧ (FS.statD s.fs d).isSome = true) ∧
          (∃ Δ, s1.tr = s.tr ++ Δ ∧ ∀ e ∈ Δ, ∃ q, q ≠ [] ∧ q <+: xs.reverse ∧ e = Ev.mkdirE q) := by
        cases hstat : FS.statD s.fs xs.reverse with
        | some e1 =>
            have hdir : e1 = Entry.dir := by
              rcases hdf xs.reverse hDpref with hnone | hdirx
              · rw [hstat] at hnone; exact absurd hnone (by simp)
              · rw [hstat] at hdirx; exact Option.some.inj hdirx
            subst hdir
            refine ⟨s, by simp, hstat, fun q _ => rfl,
              fun q _ => Or.inl rfl, ?_, ⟨[], by simp, by simp⟩⟩
            intro q hq
            by_cases hqD : q = xs.reverse
            · subst hqD; rw [hstat]; exact Or.inl rfl
            · exact Or.inr ⟨xs.reverse, hq, hqD, List.prefix_refl _, by rw [hstat]; rfl⟩
        | none =>
            have hdf' : dirFree s.fs xs.reverse := fun q hq => hdf q (hq.trans hDpref)
            obtain ⟨s1, hrun1, hout1⟩ := ih s hdf'
            refine ⟨s1, by rw [if_neg (by simp)]; exact hrun1,
              hout1.rootDir, hout1.outside, hout1.chain, hout1.covered, hout1.evs⟩
      obtain ⟨s1, hrun1, pd1, punch1, pch1, pvi1, ⟨Δ1, htr1, hev1⟩⟩ := phase1
      -- Phase 2: ensure the target itself.
      have hPs1 : FS.statD s1.fs (xs.reverse ++ [x]) = FS.statD s.fs (xs.reverse ++ [x]) :=
        punch1 _ hnPD
      have hrun : makeFoldersRev s (x :: xs) =
          (if (FS.statD s1.fs (xs.reverse ++ [x])).isSome = true then (.ok s1 : FsM)
           else mkdirOp s1 (xs.reverse ++ [x])) := by
        rw [makeFoldersRev_cons, hrun1, except_bind_ok]
      rw [hrun]
      rcases hdf (xs.reverse ++ [x]) (List.prefix_refl _) with hnone | hdir
      · -- target missing: mkdir it
        have hPs1' : FS.statD s1.fs (xs.reverse ++ [x]) = none := by rw [hPs1, hnone]
        refine ⟨⟨(xs.reverse ++ [x], Entry.dir) :: s1.fs,
          s1.tr ++ [Ev.mkdirE (xs.reverse ++ [x])]⟩, ?_, ?_, ?_, ?_, ?_, ?_, ?_⟩
        · rw [if_neg (by rw [hPs1']; simp)]
          simp only [mkdirOp, hPs1', hPdrop, pd1]
        · rw [statD_cons _ _ _ _ hPne, if_pos rfl]
        · intro _
          rw [hPdrop, statD_cons _ _ _ _ hPne, if_neg hDneP]
          exact pd1
        · intro q hq
          have hqP : q ≠ xs.reverse ++ [x] := fun hh => hq (hh ▸ List.prefix_refl _)
          have hqD : ¬ q <+: xs.reverse := fun hh => hq (hh.trans hDpref)
          rw [statD_cons _ _ _ _ hPne, if_neg hqP]
          exact punch1 q hqD
        · intro q hq
          rw [statD_cons _ _ _ _ hPne]
          by_cases hqP : q = xs.reverse ++ [x]
          · rw [if_pos hqP, hqP]
            exact Or.inr ⟨hnone, rfl⟩
          · rw [if_neg hqP]
            rcases prefix_concat_cases hq with hqD | hqeq
            · exact pch1 q hqD
            · exact absurd hqeq hqP
        · intro q hq
          rw [statD_cons _ _ _ _ hPne]
          by_cases hqP : q = xs.reverse ++ [x]
          · rw [if_pos hqP]; exact Or.inl rfl
          · rw [if_neg hqP]
            rcases prefix_concat_cases hq with hqD | hqeq
            · rcases pvi1 q hqD with hl | ⟨d, h1, h2, h3, h4⟩
              · exact Or.inl hl
              · exact Or.inr ⟨d, h1, h2, h3.trans hDpref, h4⟩
            · exact absurd hqeq hqP
        · refine ⟨Δ1 ++ [Ev.mkdirE (xs.reverse ++ [x])], by rw [htr1, List.append_assoc], ?_⟩
          intro e he
          rcases List.mem_append.mp he with he1 | he2
          · obtain ⟨q, hq1, hq2, hq3⟩ := hev1 e he1
            exact ⟨q, hq1, hq2.trans hDpref, hq3⟩
          · rw [List.mem_singleton.mp he2]
            exact ⟨xs.reverse ++ [x], hPne, List.prefix_refl _, rfl⟩
      · -- target already a directory
        have hPs1' : FS.statD s1.fs (xs.reverse ++ [x]) = some Entry.dir := by rw [hPs1, hdir]
        have hcond : (FS.statD s1.fs (xs.reverse ++ [x])).isSome = true := by rw [hPs1']; rfl
        refine ⟨s1, by rw [if_pos hcond], hPs1', ?_, ?_, ?_, ?_, ⟨Δ1, htr1, ?_⟩⟩
        · intro _
          rw [hPdrop]; exact pd1
        · intro q hq
          exact punch1 q (fun hh => hq (hh.trans hDpref))
        · intro q hq
          rcases prefix_concat_cases hq with hqD | hqeq
          · exact pch1 q hqD
          · rw [hqeq]
            exact Or.inl hPs1
        · intro q hq
          rcases prefix_concat_cases hq with hqD | hqeq
          · rcases pvi1 q hqD with hl | ⟨d, h1, h2, h3, h4⟩
            · exact Or.inl hl
            · exact Or.inr ⟨d, h1, h2, h3.trans hDpref, h4⟩
          · rw [hqeq, hPs1']
            exact Or.inl rfl
        · intro e he
          obtain ⟨q, hq1, hq2, hq3⟩ := hev1 e he
          exact ⟨q, hq1, hq2.trans hDpref, hq3⟩

lemma makeFolders_root (s : St) (p : List String) (hdf : dirFree s.fs p) :
    ∃ s', makeFoldersM s p = .ok s' ∧ RootOut s p s' := by
  have h := makeFoldersRev_root p.reverse s (by rw [List.reverse_reverse]; exact hdf)
  rw [List.reverse_reverse] at h
  exact h

/-! ## Subtree-replay lemmas -/

lemma opt_bind_some {α β : Type} (a : α) (f : α → Option β) :
    ((some a : Option α) >>= f) = f a := rfl

lemma mfMRev_cons (M : FS) (x : String) (xs : List String) :
    mfMRev M (x :: xs) =
      ((if (FS.statD M xs.reverse).isSome = true then (some M) else mfMRev M xs) >>= fun M1 =>
        match FS.statD M1 (xs.reverse ++ [x]) with
        | some _ => some M1
        | none =>
            match FS.statD M1 ((xs.reverse ++ [x]).dropLast) with
            | some Entry.dir => some (setEntry M1 (xs.reverse ++ [x]) Entry.dir)
            | _ => none) := by
  by_cases h : (FS.statD M xs.reverse).isSome = true
  · simp only [mfMRev, h, if_true, opt_bind_some]
  · simp only [mfMRev, h, Bool.false_eq_true, if_false]

lemma subInv_cons (b : List String) (fs1 : FS) (M : FS) (s : St)
    (hInv : SubInv b fs1 M s) (z : List String) (hz : z ≠ []) (e : Entry) (tr' : List Ev) :
    SubInv b fs1 (setEntry M z e) ⟨(b ++ z, e) :: s.fs, tr'⟩ := by
  obtain ⟨hin, hout, hpar⟩ := hInv
  have hbz : b ++ z ≠ [] := append_ne_nil_left hz
  refine ⟨?_, ?_, ?_⟩
  · intro w
    show FS.statD ((b ++ z, e) :: s.fs) (b ++ w) = _
    rw [statD_cons _ _ _ _ hbz, statD_setEntry _ _ _ _ hz]
    by_cases hwz : w = z
    · rw [if_pos (by rw [hwz]), if_pos hwz]
    · rw [if_neg (fun hh => hwz (List.append_cancel_left hh)), if_neg hwz]
      exact hin w
  · intro q hq
    show FS.statD ((b ++ z, e) :: s.fs) q = _
    rw [statD_cons _ _ _ _ hbz,
      if_neg (fun hh => hq (by rw [hh]; exact List.prefix_append b z))]
    exact hout q hq
  · show FS.statD ((b ++ z, e) :: s.fs) b.dropLast = _
    rw [statD_cons _ _ _ _ hbz, if_neg (dropLast_ne_append hz)]
    exact hpar

lemma mfMRev_step (b : List String) (fs1 : FS) :
    ∀ (r : List String) (M : FS) (s : St), SubInv b fs1 M s →
    ∀ M', mfMRev M r = some M' →
    ∃ s', makeFoldersRev s (r ++ b.reverse) = .ok s' ∧ SubInv b fs1 M' s' := by
  intro r
  induction r with
  | nil =>
      intro M s hInv M' hM'
      obtain rfl : M = M' := Option.some.inj hM'
      obtain ⟨hin, hout, hpar⟩ := hInv
      refine ⟨s, ?_, hin, hout, hpar⟩
      rw [List.nil_append]
      cases hb : b.reverse with
      | nil => rfl
      | cons x xs =>
          have hbx : b = xs.reverse ++ [x] := by
            rw [← List.reverse_reverse b, hb, List.reverse_cons]
          have hxs : xs.reverse = b.dropLast := by
            rw [hbx, List.dropLast_concat]
          have h1 : (FS.statD s.fs xs.reverse).isSome = true := by
            rw [hxs, hpar]; rfl
          have h2 : (FS.statD s.fs (xs.reverse ++ [x])).isSome = true := by
            rw [← hbx]
            have := hin []
            rw [List.append_nil] at this
            rw [this]; rfl
          rw [makeFoldersRev_cons, if_pos h1, except_bind_ok, if_pos h2]
  | cons x xs ih =>
      intro M s hInv M' hM'
      have hrev : (xs ++ b.reverse).reverse = b ++ xs.reverse := by
        rw [List.reverse_append, List.reverse_reverse]
      have hv : FS.statD s.fs (b ++ xs.reverse) = FS.statD M xs.reverse := hInv.1 xs.reverse
      rw [mfMRev_cons] at hM'
      rw [show ((x :: xs) ++ b.reverse) = x :: (xs ++ b.reverse) from rfl,
        makeFoldersRev_cons, hrev]
      -- phase 1
      have phase1 : ∃ s1 M1,
          (if (FS.statD s.fs (b ++ xs.reverse)).isSome = true then (.ok s : FsM)
           else makeFoldersRev s (xs ++ b.reverse)) = .ok s1 ∧
          (if (FS.statD M xs.reverse).isSome = true then (some M) else mfMRev M xs) = some M1 ∧
          SubInv b fs1 M1 s1 := by
        cases hstat : FS.statD M xs.reverse with
        | some e1 =>
            refine ⟨s, M, ?_, ?_, hInv⟩
            · simp only [hv, hstat, Option.isSome_some, if_true]
            · simp
        | none =>
            rcases hm1 : mfMRev M xs with _ | M1
            · rw [if_neg (by rw [hstat]; simp), hm1] at hM'
              exact absurd hM' (by simp)
            · obtain ⟨s1, hrun1, hInv1⟩ := ih M s hInv M1 hm1
              refine ⟨s1, M1, ?_, ?_, hInv1⟩
              · rw [if_neg (by rw [hv, hstat]; simp)]
                exact hrun1
              · rw [if_neg (by simp)]
      obtain ⟨s1, M1, hrun1, hm1, hInv1⟩ := phase1
      rw [hrun1, except_bind_ok]
      rw [hm1, opt_bind_some] at hM'
      have hv1 : FS.statD s1.fs ((b ++ xs.reverse) ++ [x]) = FS.statD M1 (xs.reverse ++ [x]) := by
        rw [List.append_assoc]
        exact hInv1.1 (xs.reverse ++ [x])
      cases hP : FS.statD M1 (xs.reverse ++ [x]) with
      | some e2 =>
          rw [hP] at hM'
          obtain rfl : M1 = M' := Option.some.inj hM'
          exact ⟨s1, by rw [if_pos (by rw [hv1, hP]; rfl)], hInv1⟩
      | none =>
          rw [hP, List.dropLast_concat] at hM'
          cases hD : FS.statD M1 xs.reverse with
          | none => rw [hD] at hM'; exact absurd hM' (by simp)
          | some e3 =>
              cases e3 with
              | file c => rw [hD] at hM'; exact absurd hM' (by simp)
              | dir =>
                  rw [hD] at hM'
                  obtain rfl : setEntry M1 (xs.reverse ++ [x]) Entry.dir = M' :=
                    Option.some.inj hM'
                  have hvD : FS.statD s1.fs (b ++ xs.reverse) = some Entry.dir := by
                    rw [hInv1.1 xs.reverse, hD]
                  refine ⟨⟨((b ++ xs.reverse) ++ [x], Entry.dir) :: s1.fs,
                    s1.tr ++ [Ev.mkdirE ((b ++ xs.reverse) ++ [x])]⟩, ?_, ?_⟩
                  · rw [if_neg (by rw [hv1, hP]; simp)]
                    simp only [mkdirOp, hv1, hP, List.dropLast_concat, hvD]
                  · have := subInv_cons b fs1 M1 s1 hInv1 (xs.reverse ++ [x])
                      (append_ne_nil_left (by simp)) Entry.dir
                      (s1.tr ++ [Ev.mkdirE ((b ++ xs.reverse) ++ [x])])
                    rw [← List.append_assoc] at this
                    exact this

lemma mfM_step (b : List String) (fs1 : FS) (M : FS) (s : St) (hInv : SubInv b fs1 M s)
    (y : List String) (M' : FS) (hM' : mfM M y = some M') :
    ∃ s', makeFoldersM s (b ++ y) = .ok s' ∧ SubInv b fs1 M' s' := by
  have h := mfMRev_step b fs1 y.reverse M s hInv M' hM'
  rw [← List.reverse_append, ← makeFoldersM] at h
  exact h

lemma wfM_step (b : List String) (fs1 : FS) (M : FS) (s : St) (hInv : SubInv b fs1 M s)
    (y : List String) (c : String) (hy : y ≠ []) (M' : FS) (hM' : wfM M y c = some M') :
    ∃ s', writeFileOp s (b ++ y) c = .ok s' ∧ SubInv b fs1 M' s' := by
  unfold wfM at hM'
  have hdl : (b ++ y).dropLast = b ++ y.dropLast := List.dropLast_append_of_ne_nil b hy
  have hvp : FS.statD s.fs (b ++ y.dropLast) = FS.statD M y.dropLast := hInv.1 _
  have hv : FS.statD s.fs (b ++ y) = FS.statD M y := hInv.1 _
  cases hpar : FS.statD M y.dropLast with
  | none => rw [hpar] at hM'; exact absurd hM' (by simp)
  | some e1 =>
      cases e1 with
      | file c2 => rw [hpar] at hM'; exact absurd hM' (by simp)
      | dir =>
          rw [hpar] at hM'
          have hgo : ∀ (htgt : FS.statD M y ≠ some Entry.dir), ∃ s',
              writeFileOp s (b ++ y) c = .ok s' ∧ SubInv b fs1 (setEntry M y (Entry.file c)) s' := by
            intro htgt
            refine ⟨⟨(b ++ y, Entry.file c) :: s.fs, s.tr ++ [Ev.writeE (b ++ y) c]⟩, ?_, ?_⟩
            · unfold writeFileOp
              rw [hdl, hvp, hpar, hv]
              cases ht : FS.statD M y with
              | none => rfl
              | some e2 =>
                  cases e2 with
                  | dir => exact absurd ht htgt
                  | file c3 => rfl
            · exact subInv_cons b fs1 M s hInv y hy (Entry.file c) _
          cases htgt : FS.statD M y with
          | some e2 =>
              cases e2 with
              | dir => rw [htgt] at hM'; exact absurd hM' (by simp)
              | file c3 =>
                  rw [htgt] at hM'
                  obtain rfl := Option.some.inj hM'
                  exact hgo (by rw [htgt]; simp)
          | none =>
              rw [htgt] at hM'
              obtain rfl := Option.some.inj hM'
              exact hgo (by rw [htgt]; simp)

lemma makeFileM_step (b : List String) (fs1 : FS) (M : FS) (s : St) (hInv : SubInv b fs1 M s)
    (y : List String) (c : String) (hy : y ≠ []) (M' : FS) (hM' : mfileM M y c = some M') :
    ∃ s', makeFileM s (b ++ y) c = .ok s' ∧ SubInv b fs1 M' s' := by
  unfold mfileM at hM'
  rcases hm1 : mfM M y.dropLast with _ | M1
  · rw [hm1] at hM'
    exact absurd hM' (by simp)
  · rw [hm1, opt_bind_some] at hM'
    obtain ⟨s1, hrun1, hInv1⟩ := mfM_step b fs1 M s hInv y.dropLast M1 hm1
    obtain ⟨s2, hrun2, hInv2⟩ := wfM_step b fs1 M1 s1 hInv1 y c hy M' hM'
    refine ⟨s2, ?_, hInv2⟩
    unfold makeFileM
    rw [List.dropLast_append_of_ne_nil b hy, hrun1, except_bind_ok, hrun2]

lemma runScript_ok (git : GitBehavior) (b : List String) (fs1 : FS) :
    ∀ (steps : List SStep) (M : FS) (s : St), SubInv b fs1 M s →
    stepsOkW steps = true →
    ∀ M', scriptM git M steps = some M' →
    ∃ s', runScript git b s steps = .ok s' ∧ SubInv b fs1 M' s' := by
  intro steps
  induction steps with
  | nil =>
      intro M s hInv _ M' hM'
      obtain rfl := Option.some.inj hM'
      exact ⟨s, rfl, hInv⟩
  | cons step rest ih =>
      intro M s hInv hwf M' hM'
      cases step with
      | mkTree y =>
          simp only [scriptM] at hM'
          simp only [stepsOkW] at hwf
          rcases hm1 : mfM M y with _ | M1
          · rw [hm1] at hM'
            exact absurd hM' (by simp)
          · rw [hm1, opt_bind_some] at hM'
            obtain ⟨s1, hrun1, hInv1⟩ := mfM_step b fs1 M s hInv y M1 hm1
            obtain ⟨s2, hrun2, hInv2⟩ := ih M1 s1 hInv1 hwf M' hM'
            refine ⟨s2, ?_, hInv2⟩
            simp only [runScript, hrun1, except_bind_ok, hrun2]
      | putFile y c =>
          simp only [scriptM] at hM'
          simp only [stepsOkW, Bool.and_eq_true] at hwf
          have hy : y ≠ [] := by
            intro hh
            rw [hh] at hwf
            simp at hwf
          rcases hm1 : mfileM M y c with _ | M1
          · rw [hm1] at hM'
            exact absurd hM' (by simp)
          · rw [hm1, opt_bind_some] at hM'
            obtain ⟨s1, hrun1, hInv1⟩ := makeFileM_step b fs1 M s hInv y c hy M1 hm1
            obtain ⟨s2, hrun2, hInv2⟩ := ih M1 s1 hInv1 hwf.2 M' hM'
            refine ⟨s2, ?_, hInv2⟩
            simp only [runScript, hrun1, except_bind_ok, hrun2]
      | gitInit =>
          simp only [stepsOkW] at hwf
          cases git with
          | exitCode code =>
              simp only [scriptM] at hM'
              obtain ⟨s2, hrun2, hInv2⟩ := ih M s hInv hwf M' hM'
              refine ⟨s2, ?_, hInv2⟩
              simp only [runScript, runCommandM, hrun2]
          | spawnError =>
              simp only [scriptM] at hM'
              exact absurd hM' (by simp)

lemma runScript_append (git : GitBehavior) (b : List String) :
    ∀ (L1 L2 : List SStep) (s : St),
    runScript git b s (L1 ++ L2) =
      ((runScript git b s L1) >>= fun s1 => runScript git b s1 L2) := by
  intro L1
  induction L1 with
  | nil =>
      intro L2 s
      simp only [List.nil_append, runScript, except_bind_ok]
  | cons step rest ih =>
      intro L2 s
      cases step with
      | mkTree y =>
          simp only [List.cons_append, runScript]
          cases h : makeFoldersM s (b ++ y) with
          | ok s1 => simp only [except_bind_ok, List.append_eq, ih]
          | error e => simp only [except_bind_err]
      | putFile y c =>
          simp only [List.cons_append, runScript]
          cases h : makeFileM s (b ++ y) c with
          | ok s1 => simp only [except_bind_ok, List.append_eq, ih]
          | error e => simp only [except_bind_err]
      | gitInit =>
          simp only [List.cons_append, runScript]
          cases git with
          | exitCode code => simp only [runCommandM, List.append_eq, ih]
          | spawnError => simp only [runCommandM, except_bind_err]

/-! ## The master lemma for successful `init` runs -/

lemma opt_eq_some_getD {α : Type} (o : Option α) (d : α) (h : o.isSome = true) :
    o = some (o.getD d) := by
  cases o with
  | none => simp at h
  | some v => rfl

lemma initScript_wf (root : String) (opts : InitOpts) :
    stepsOkW (initScript root opts) = true := by
  rcases opts with ⟨f, t, g⟩
  cases t <;> cases g <;> rfl

lemma scriptM_init_isSome (root : String) (opts : InitOpts) (git : GitBehavior)
    (hgit : opts.nogit = true ∨ git ≠ GitBehavior.spawnError) :
    (scriptM git [] (initScript root opts)).isSome = true := by
  rcases opts with ⟨f, t, g⟩
  cases g with
  | true => cases t <;> rfl
  | false =>
      cases git with
      | exitCode c => cases t <;> rfl
      | spawnError =>
          rcases hgit with h1 | h2
          · exact absurd h1 (by simp)
          · exact absurd rfl h2

lemma scriptM_init_eq (root : String) (opts : InitOpts) (git : GitBehavior)
    (hgit : opts.nogit = true ∨ git ≠ GitBehavior.spawnError) :
    scriptM git [] (initScript root opts) = some (finalM root opts git) :=
  opt_eq_some_getD _ _ (scriptM_init_isSome root opts git hgit)

lemma scaffold_master (fs : FS) (pr : List String) (root : String)
    (opts : InitOpts) (git : GitBehavior)
    (hfresh : ∀ q, pr <+: q → fs.statD q = none)
    (hanc : dirFree fs pr)
    (hgit : opts.nogit = true ∨ git ≠ GitBehavior.spawnError) :
    ∃ s', scaffold git pr root opts ⟨fs, []⟩ = .ok s' ∧
      (∀ z, FS.statD s'.fs (pr ++ z) = FS.statD (finalM root opts git) z) ∧
      (∀ q, ¬ q <+: pr → ¬ pr <+: q → FS.statD s'.fs q = FS.statD fs q) ∧
      (∀ q, q <+: pr → FS.statD s'.fs q = FS.statD fs q ∨
        (FS.statD fs q = none ∧ FS.statD s'.fs q = some Entry.dir)) := by
  have hprne : pr ≠ [] := by
    intro hh
    have h := hfresh pr (List.prefix_refl _)
    rw [hh] at h
    simp [FS.statD] at h
  obtain ⟨s1, hrun1, hout⟩ := makeFolders_root ⟨fs, []⟩ pr hanc
  have hSub : SubInv pr s1.fs [] s1 := by
    refine ⟨?_, fun q _ => rfl, hout.parentDir hprne⟩
    intro z
    cases z with
    | nil =>
        rw [List.append_nil]
        exact hout.rootDir
    | cons a zs =>
        have hz : (a :: zs) ≠ ([] : List String) := by simp
        have h1 : ¬ (pr ++ (a :: zs) <+: pr) := not_append_prefix hz
        rw [hout.outside _ h1]
        show FS.statD fs (pr ++ a :: zs) = FS.statD ([] : FS) (a :: zs)
        rw [hfresh _ (List.prefix_append pr (a :: zs))]
        simp [FS.statD]
  obtain ⟨s2, hrun2, hInv2⟩ := runScript_ok git pr s1.fs (initScript root opts) [] s1 hSub
    (initScript_wf root opts) (finalM root opts git) (scriptM_init_eq root opts git hgit)
  refine ⟨s2, ?_, hInv2.1, ?_, ?_⟩
  · unfold scaffold
    rw [hrun1, except_bind_ok, hrun2]
  · intro q hq1 hq2
    rw [hInv2.2.1 q hq2]
    exact hout.outside q hq1
  · intro q hq
    by_cases hqp : q = pr
    · subst hqp
      have h1 := hInv2.1 []
      rw [List.append_nil] at h1
      rw [h1]
      exact Or.inr ⟨hfresh q (List.prefix_refl _), by simp [FS.statD]⟩
    · have hnp : ¬ pr <+: q := fun hh => hqp (hq.eq_of_length_le hh.length_le)
      rw [hInv2.2.1 q hnp]
      exact hout.chain q hq

theorem init_success_master (fs : FS) (cwd : List String) (root : String)
    (opts : InitOpts) (git : GitBehavior)
    (hfresh : ∀ q, joinPath cwd root <+: q → fs.statD q = none)
    (hanc : dirFree fs (joinPath cwd root))
    (hgit : opts.nogit = true ∨ git ≠ GitBehavior.spawnError) :
    ∃ s', initAction fs cwd root opts git = InitOutcome.done s' ∧
      (∀ z, FS.statD s'.fs (joinPath cwd root ++ z) =
        FS.statD (finalM root opts git) z) ∧
      (∀ q, ¬ q <+: joinPath cwd root → ¬ joinPath cwd root <+: q →
        FS.statD s'.fs q = FS.statD fs q) ∧
      (∀ q, q <+: joinPath cwd root → FS.statD s'.fs q = FS.statD fs q ∨
        (FS.statD fs q = none ∧ FS.statD s'.fs q = some Entry.dir)) := by
  obtain ⟨s', hrun, hin, hside, hchain⟩ :=
    scaffold_master fs (joinPath cwd root) root opts git hfresh hanc hgit
  refine ⟨s', ?_, hin, hside, hchain⟩
  unfold initAction
  rw [if_neg (by rw [hfresh (joinPath cwd root) (List.prefix_refl _)]; simp), hrun]
  rfl

/-! ## Claim C4: collision check and force semantics -/

/-- C4: if the target root already exists and `force` is false, `init` stops
with exit code 1 having performed no filesystem writes (the state is the
original filesystem and the trace is empty); if `force` is true, the whole
run is the run on the filesystem with the root's subtree recursively
removed, and in that filesystem every path at or below the root is gone. -/
theorem init_force_semantics (fs : FS) (cwd : List String) (root : String)
    (opts : InitOpts) (git : GitBehavior)
    (hex : (fs.statD (joinPath cwd root)).isSome = true) :
    (opts.force = false →
      initAction fs cwd root opts git = InitOutcome.exit1 ⟨fs, []⟩)
  ∧ (opts.force = true →
      initAction fs cwd root opts git =
        initAction (fs.rmAll (joinPath cwd root)) cwd root opts git
      ∧ ∀ q, q ≠ [] → joinPath cwd root <+: q →
          FS.statD (fs.rmAll (joinPath cwd root)) q = none) := by
  constructor
  · intro hf
    unfold initAction
    rw [if_pos hex, if_pos hf]
  · intro hf
    constructor
    · unfold initAction
      rw [if_pos hex, if_neg (by rw [hf]; simp)]
      by_cases hpr : joinPath cwd root = []
      · rw [hpr]
        rw [if_pos (by simp [FS.statD]), if_neg (by rw [hf]; simp), rmAll_idem]
      · rw [if_neg (by rw [statD_rmAll fs _ _ hpr, if_pos (List.prefix_refl _)]; simp)]
    · intro q hq hpre
      rw [statD_rmAll fs _ q hq, if_pos hpre]

/-- C4 witness: a concrete existing root without and with `force`. -/
theorem init_force_semantics_witness :
    ((false : Bool) = false →
      initAction [(["home"], Entry.dir), (["home", "game"], Entry.dir)] ["home"] "game"
        ⟨false, TemplateName.basic, true⟩ (GitBehavior.exitCode 0) =
        InitOutcome.exit1 ⟨[(["home"], Entry.dir), (["home", "game"], Entry.dir)], []⟩)
  ∧ ((false : Bool) = true →
      initAction [(["home"], Entry.dir), (["home", "game"], Entry.dir)] ["home"] "game"
        ⟨false, TemplateName.basic, true⟩ (GitBehavior.exitCode 0) =
        initAction (FS.rmAll [(["home"], Entry.dir), (["home", "game"], Entry.dir)]
          (joinPath ["home"] "game")) ["home"] "game"
          ⟨false, TemplateName.basic, true⟩ (GitBehavior.exitCode 0)
      ∧ ∀ q, q ≠ [] → joinPath ["home"] "game" <+: q →
          FS.statD (FS.rmAll [(["home"], Entry.dir), (["home", "game"], Entry.dir)]
            (joinPath ["home"] "game")) q = none) :=
  init_force_semantics [(["home"], Entry.dir), (["home", "game"], Entry.dir)]
    ["home"] "game" ⟨false, TemplateName.basic, true⟩ (GitBehavior.exitCode 0) (by rfl)

/-! ## Claim C7: `add` argument and project validation -/

/-- C7: `add` with a `type` outside scene/object/component stops with exit
code 1 before any filesystem action; likewise when `src/scenes` is absent
under the current directory (in both cases the state is the original
filesystem and the trace is empty). -/
theorem addUnit_rejects_invalid (fs : FS) (cwd : List String) (ty name : String) :
    (ty ∉ (["scene", "object", "component"] : List String) →
      addAction fs cwd ty name = AddOutcome.exit1 ⟨fs, []⟩)
  ∧ ((fs.statD (joinMany cwd ["src", "scenes"])).isSome = false →
      addAction fs cwd ty name = AddOutcome.exit1 ⟨fs, []⟩) := by
  constructor
  · intro hmem
    unfold addAction
    rw [if_pos (Bool.eq_false_iff.mpr (fun hh => hmem (List.elem_iff.mp hh)))]
  · intro hsc
    unfold addAction
    by_cases hc : (["scene", "object", "component"] : List String).contains ty = false
    · rw [if_pos hc]
    · rw [if_neg hc, if_pos hsc]

/-- C7 witness: a bad `type` and a directory with no `src/scenes`. -/
theorem addUnit_rejects_invalid_witness :
    (("enemy" : String) ∉ (["scene", "object", "component"] : List String) ∧
      addAction [] [] "enemy" "foo" = AddOutcome.exit1 ⟨[], []⟩)
  ∧ ((FS.statD [] (joinMany [] ["src", "scenes"])).isSome = false ∧
      addAction [] [] "scene" "foo" = AddOutcome.exit1 ⟨[], []⟩) :=
  ⟨⟨by decide, (addUnit_rejects_invalid [] [] "enemy" "foo").1 (by decide)⟩,
   ⟨by rfl, (addUnit_rejects_invalid [] [] "scene" "foo").2 (by rfl)⟩⟩

/-! ## Claim C6: idempotent recursive directory creation -/

/-- C6: on a filesystem where no file blocks the prefix chain of `p` and
existing chain entries have existing ancestors, `makeFolders` succeeds,
afterwards `p` and all its ancestors are directories, and running it a
second time succeeds without changing anything (same state, no new trace
events, hence no duplicate). -/
theorem makeFolders_idempotent (fs : FS) (tr : List Ev) (p : List String)
    (hdf : dirFree fs p)
    (hcl : ∀ q q2, q <+: p → q2 <+: q → (fs.statD q).isSome = true →
      (fs.statD q2).isSome = true) :
    ∃ s', makeFoldersM ⟨fs, tr⟩ p = .ok s' ∧
      (∀ q, q <+: p → FS.statD s'.fs q = some Entry.dir) ∧
      makeFoldersM s' p = .ok s' := by
  obtain ⟨s', hrun, hout⟩ := makeFolders_root ⟨fs, tr⟩ p hdf
  have hdirs : ∀ q, q <+: p → FS.statD s'.fs q = some Entry.dir := by
    intro q hq
    have hex : (FS.statD (⟨fs, tr⟩ : St).fs q).isSome = true →
        FS.statD s'.fs q = some Entry.dir := by
      intro hsome
      rcases hout.chain q hq with hunch | ⟨_, hdir⟩
      · rw [hunch]
        rcases hdf q hq with hnone | hdir2
        · rw [show FS.statD (⟨fs, tr⟩ : St).fs q = fs.statD q from rfl, hnone] at hsome
          simp at hsome
        · exact hdir2
      · exact hdir
    rcases hout.covered q hq with hs | ⟨d, h1, h2, h3, h4⟩
    · rcases hout.chain q hq with hunch | ⟨_, hdir⟩
      · rw [hunch] at hs ⊢
        rcases hdf q hq with hnone | hdir2
        · rw [show FS.statD (⟨fs, tr⟩ : St).fs q = fs.statD q from rfl, hnone] at hs
          simp at hs
        · exact hdir2
      · exact hdir
    · exact hex (hcl d q h3 h1 h4)
  refine ⟨s', hrun, hdirs, ?_⟩
  exact makeFolders_noop s' p (fun q hq => by rw [hdirs q hq]; rfl)

/-- C6 witness: creating `a/b` on an empty filesystem, twice. -/
theorem makeFolders_idempotent_witness :
    ∃ s', makeFoldersM ⟨[], []⟩ ["a", "b"] = .ok s' ∧
      (∀ q, q <+: ["a", "b"] → FS.statD s'.fs q = some Entry.dir) ∧
      makeFoldersM s' ["a", "b"] = .ok s' := by
  apply makeFolders_idempotent [] [] ["a", "b"]
  · intro q _
    by_cases hq : q = ([] : List String)
    · exact Or.inr (by simp [FS.statD, hq])
    · exact Or.inl (by simp [FS.statD, hq])
  · intro q q2 _ hq2 hsome
    by_cases hq : q = ([] : List String)
    · rw [hq] at hq2
      rw [List.prefix_nil.mp hq2]
      rfl
    · rw [show FS.statD ([] : FS) q = none by simp [FS.statD, hq]] at hsome
      simp at hsome

/-! ## File-set lemmas for C5 -/

lemma nodupKeys_setEntry (M : FS) (k : List String) (e : Entry)
    (h : (M.map Prod.fst).Nodup) : ((setEntry M k e).map Prod.fst).Nodup := by
  unfold setEntry
  rw [List.map_cons, List.nodup_cons]
  constructor
  · intro hk
    obtain ⟨kv, hkv, hfst⟩ := List.mem_map.mp hk
    have hpred := List.of_mem_filter hkv
    rw [hfst] at hpred
    simp at hpred
  · exact ((List.filter_sublist M).map Prod.fst).nodup h

lemma mfMRev_nodup : ∀ (r : List String) (M M' : FS), (M.map Prod.fst).Nodup →
    mfMRev M r = some M' → (M'.map Prod.fst).Nodup := by
  intro r
  induction r with
  | nil =>
      intro M M' h hM'
      obtain rfl := Option.some.inj hM'
      exact h
  | cons x xs ih =>
      intro M M' h hM'
      rw [mfMRev_cons] at hM'
      cases hif : (if (FS.statD M xs.reverse).isSome = true then some M else mfMRev M xs) with
      | none => rw [hif] at hM'; exact absurd hM' (by simp)
      | some M1 =>
          rw [hif, opt_bind_some] at hM'
          have h1 : (M1.map Prod.fst).Nodup := by
            by_cases hc : (FS.statD M xs.reverse).isSome = true
            · rw [if_pos hc] at hif
              obtain rfl := Option.some.inj hif
              exact h
            · rw [if_neg hc] at hif
              exact ih M M1 h hif
          cases hP : FS.statD M1 (xs.reverse ++ [x]) with
          | some e =>
              rw [hP] at hM'
              obtain rfl := Option.some.inj hM'
              exact h1
          | none =>
              rw [hP] at hM'
              cases hD : FS.statD M1 ((xs.reverse ++ [x]).dropLast) with
              | none => rw [hD] at hM'; exact absurd hM' (by simp)
              | some e3 =>
                  cases e3 with
                  | file c => rw [hD] at hM'; exact absurd hM' (by simp)
                  | dir =>
                      rw [hD] at hM'
                      obtain rfl := Option.some.inj hM'
                      exact nodupKeys_setEntry M1 _ _ h1

lemma wfM_nodup (M M' : FS) (y : List String) (c : String)
    (h : (M.map Prod.fst).Nodup) (hM' : wfM M y c = some M') :
    (M'.map Prod.fst).Nodup := by
  unfold wfM at hM'
  cases hp : FS.statD M y.dropLast with
  | none => rw [hp] at hM'; exact absurd hM' (by simp)
  | some e1 =>
      cases e1 with
      | file c2 => rw [hp] at hM'; exact absurd hM' (by simp)
      | dir =>
          rw [hp] at hM'
          cases ht : FS.statD M y with
          | none =>
              rw [ht] at hM'
              obtain rfl := Option.some.inj hM'
              exact nodupKeys_setEntry M _ _ h
          | some e2 =>
              cases e2 with
              | dir => rw [ht] at hM'; exact absurd hM' (by simp)
              | file c3 =>
                  rw [ht] at hM'
                  obtain rfl := Option.some.inj hM'
                  exact nodupKeys_setEntry M _ _ h

lemma scriptM_nodup (git : GitBehavior) : ∀ (steps : List SStep) (M M' : FS),
    (M.map Prod.fst).Nodup → scriptM git M steps = some M' →
    (M'.map Prod.fst).Nodup := by
  intro steps
  induction steps with
  | nil =>
      intro M M' h hM'
      obtain rfl := Option.some.inj hM'
      exact h
  | cons step rest ih =>
      intro M M' h hM'
      cases step with
      | mkTree y =>
          simp only [scriptM] at hM'
          rcases hm : mfM M y with _ | M1
          · rw [hm] at hM'; exact absurd hM' (by simp)
          · rw [hm, opt_bind_some] at hM'
            exact ih M1 M' (mfMRev_nodup y.reverse M M1 h hm) hM'
      | putFile y c =>
          simp only [scriptM] at hM'
          rcases hm : mfileM M y c with _ | M1
          · rw [hm] at hM'; exact absurd hM' (by simp)
          · rw [hm, opt_bind_some] at hM'
            have h1 : (M1.map Prod.fst).Nodup := by
              unfold mfileM at hm
              rcases hm2 : mfM M y.dropLast with _ | M2
              · rw [hm2] at hm; exact absurd hm (by simp)
              · rw [hm2, opt_bind_some] at hm
                exact wfM_nodup M2 M1 y c (mfMRev_nodup y.dropLast.reverse M M2 h hm2) hm
            exact ih M1 M' h1 hM'
      | gitInit =>
          cases git with
          | exitCode c =>
              simp only [scriptM] at hM'
              exact ih M M' h hM'
          | spawnError =>
              simp only [scriptM] at hM'
              exact absurd hM' (by simp)

lemma finalM_nodup (root : String) (opts : InitOpts) (git : GitBehavior)
    (hgit : opts.nogit = true ∨ git ≠ GitBehavior.spawnError) :
    ((finalM root opts git).map Prod.fst).Nodup :=
  scriptM_nodup git (initScript root opts) [] _ (by simp)
    (scriptM_init_eq root opts git hgit)

lemma mem_fileKeys_mem_keys : ∀ (M : FS) (z : List String), z ∈ fileKeys M →
    z ∈ M.map Prod.fst := by
  intro M
  induction M with
  | nil => intro z h; simp [fileKeys] at h
  | cons kv t ih =>
      intro z h
      obtain ⟨k, e⟩ := kv
      cases e with
      | dir =>
          simp only [fileKeys, List.filterMap_cons] at h
          exact List.mem_cons_of_mem _ (ih z h)
      | file c =>
          simp only [fileKeys, List.filterMap_cons] at h
          rcases List.mem_cons.mp h with h1 | h1
          · rw [h1]; exact List.mem_cons_self _ _
          · exact List.mem_cons_of_mem _ (ih z h1)

lemma lookup_file_mem : ∀ (M : FS), (M.map Prod.fst).Nodup → ∀ (z : List String),
    ((∃ c, List.lookup z M = some (Entry.file c)) ↔ z ∈ fileKeys M) := by
  intro M
  induction M with
  | nil => intro _ z; simp [fileKeys]
  | cons kv t ih =>
      intro hnd z
      obtain ⟨k, e⟩ := kv
      rw [List.map_cons, List.nodup_cons] at hnd
      by_cases hz : z = k
      · subst hz
        rw [show List.lookup z ((z, e) :: t) = some e from lookup_cons_self z e t]
        cases e with
        | dir =>
            simp only [fileKeys, List.filterMap_cons]
            constructor
            · rintro ⟨c, hc⟩
              exact absurd (Option.some.inj hc) (by simp)
            · intro hmem
              exact absurd (mem_fileKeys_mem_keys t z hmem) hnd.1
        | file c =>
            simp only [fileKeys, List.filterMap_cons]
            constructor
            · intro _
              exact List.mem_cons_self z _
            · intro _
              exact ⟨c, rfl⟩
      · rw [lookup_cons_ne hz]
        cases e with
        | dir =>
            simp only [fileKeys, List.filterMap_cons]
            exact ih hnd.2 z
        | file c =>
            simp only [fileKeys, List.filterMap_cons]
            rw [List.mem_cons]
            constructor
            · intro h
              exact Or.inr ((ih hnd.2 z).mp h)
            · rintro (h | h)
              · exact absurd h hz
              · exact (ih hnd.2 z).mpr h

lemma finalM_files_mem (root : String) (force : Bool) (t : TemplateName) (g : Bool)
    (git : GitBehavior) (hgit : g = true ∨ git ≠ GitBehavior.spawnError) :
    ∀ z, z ∈ fileKeys (finalM root ⟨force, t, g⟩ git) ↔ z ∈ expectedFiles t g := by
  have hperm : (fileKeys (finalM root ⟨force, t, g⟩ git)).Perm (expectedFiles t g) := by
    cases g with
    | true =>
        cases t with
        | empty =>
            rw [show fileKeys (finalM root ⟨force, TemplateName.empty, true⟩ git) =
              [["vite.config.js"], ["tsconfig.json"], ["package.json"], [".prettierrc"],
               ["index.html"], ["src", "constants.ts"], ["src", "index.ts"],
               ["src", "scenes", "main.ts"], ["public", "manifest.json"]] from rfl]
            decide
        | basic =>
            rw [show fileKeys (finalM root ⟨force, TemplateName.basic, true⟩ git) =
              [["vite.config.js"], ["tsconfig.json"], ["package.json"], [".prettierrc"],
               ["index.html"], ["src", "constants.ts"], ["src", "index.ts"],
               ["src", "scenes", "other.ts"], ["src", "scenes", "main.ts"],
               ["src", "objects", "message.ts"], ["public", "manifest.json"]] from rfl]
            decide
    | false =>
        cases git with
        | exitCode c =>
            cases t with
            | empty =>
                rw [show fileKeys (finalM root ⟨force, TemplateName.empty, false⟩
                    (GitBehavior.exitCode c)) =
                  [["vite.config.js"], ["tsconfig.json"], ["package.json"], [".gitignore"],
                   [".prettierrc"], ["index.html"], ["src", "constants.ts"],
                   ["src", "index.ts"], ["src", "scenes", "main.ts"],
                   ["public", "manifest.json"]] from rfl]
                decide
            | basic =>
                rw [show fileKeys (finalM root ⟨force, TemplateName.basic, false⟩
                    (GitBehavior.exitCode c)) =
                  [["vite.config.js"], ["tsconfig.json"], ["package.json"], [".gitignore"],
                   [".prettierrc"], ["index.html"], ["src", "constants.ts"],
                   ["src", "index.ts"], ["src", "scenes", "other.ts"],
                   ["src", "scenes", "main.ts"], ["src", "objects", "message.ts"],
                   ["public", "manifest.json"]] from rfl]
                decide
        | spawnError =>
            rcases hgit with h | h
            · exact absurd h (by simp)
            · exact absurd rfl h
  exact fun z => hperm.mem_iff

lemma nil_not_mem_expected (t : TemplateName) (g : Bool) :
    ([] : List String) ∉ expectedFiles t g := by
  cases t <;> cases g <;> decide

/-! ## Claim C5: exact file set of a fresh `init` -/

/-- C5: for every valid template, `init` on a fresh root (nothing at or
below the resolved root, no file blocking its ancestor chain, and the
external command not failing to spawn when used) succeeds, and a path
relative to the root holds a file afterwards exactly when it belongs to the
fixed auxiliary set (manifest, HTML entry, source entry, constants module,
formatting config, type/compile config, build config, package descriptor,
plus the ignore-file unless `nogit`) united with the chosen template's file
entries; files elsewhere on the filesystem are untouched. -/
theorem init_exact_file_set (fs : FS) (cwd : List String) (root : String)
    (t : TemplateName) (force nogit : Bool) (git : GitBehavior)
    (hfresh : ∀ q, joinPath cwd root <+: q → fs.statD q = none)
    (hanc : dirFree fs (joinPath cwd root))
    (hgit : nogit = true ∨ git ≠ GitBehavior.spawnError) :
    ∃ s', initAction fs cwd root ⟨force, t, nogit⟩ git = InitOutcome.done s' ∧
      (∀ z, (∃ c, FS.statD s'.fs (joinPath cwd root ++ z) = some (Entry.file c)) ↔
        z ∈ expectedFiles t nogit) ∧
      (∀ q, ¬ joinPath cwd root <+: q → FS.isFileB s'.fs q = FS.isFileB fs q) := by
  obtain ⟨s', hrun, hin, hside, hchain⟩ :=
    init_success_master fs cwd root ⟨force, t, nogit⟩ git hfresh hanc hgit
  refine ⟨s', hrun, ?_, ?_⟩
  · intro z
    simp only [hin z]
    by_cases hz : z = []
    · subst hz
      constructor
      · rintro ⟨c, hc⟩
        rw [show FS.statD (finalM root ⟨force, t, nogit⟩ git) [] = some Entry.dir from rfl]
          at hc
        exact absurd (Option.some.inj hc) (by simp)
      · intro hmem
        exact absurd hmem (nil_not_mem_expected t nogit)
    · rw [show FS.statD (finalM root ⟨force, t, nogit⟩ git) z =
          List.lookup z (finalM root ⟨force, t, nogit⟩ git) from by simp [FS.statD, hz]]
      rw [lookup_file_mem _ (finalM_nodup root ⟨force, t, nogit⟩ git hgit) z]
      exact finalM_files_mem root force t nogit git hgit z
  · intro q hq
    by_cases hq2 : q <+: joinPath cwd root
    · rcases hchain q hq2 with hunch | ⟨hn, hd⟩
      · unfold FS.isFileB
        rw [hunch]
      · unfold FS.isFileB
        rw [hn, hd]
    · unfold FS.isFileB
      rw [hside q hq2 hq]

/-- C5 witness: the `basic` template on a fresh root under an existing home
directory, with a functioning external command. -/
theorem init_exact_file_set_witness :
    ∃ s', initAction [(["home"], Entry.dir)] ["home"] "game"
        ⟨false, TemplateName.basic, false⟩ (GitBehavior.exitCode 0) = InitOutcome.done s' ∧
      (∀ z, (∃ c, FS.statD s'.fs (joinPath ["home"] "game" ++ z) = some (Entry.file c)) ↔
        z ∈ expectedFiles TemplateName.basic false) ∧
      (∀ q, ¬ joinPath ["home"] "game" <+: q →
        FS.isFileB s'.fs q = FS.isFileB [(["home"], Entry.dir)] q) := by
  apply init_exact_file_set [(["home"], Entry.dir)] ["home"] "game" TemplateName.basic
    false false (GitBehavior.exitCode 0)
  · intro q hq
    obtain ⟨u, rfl⟩ := hq
    rfl
  · intro q hq
    have hm : q ∈ (joinPath ["home"] "game").inits :=
      (List.mem_inits q (joinPath ["home"] "game")).mpr hq
    fin_cases hm <;> decide
  · exact Or.inr (by simp)

/-! ## Fixed auxiliary contents (for C10 and C2) -/

lemma finalM_contents (root : String) (force : Bool) (t : TemplateName) (g : Bool)
    (git : GitBehavior) (hgit : g = true ∨ git ≠ GitBehavior.spawnError) :
    (∀ zc ∈ auxFixedContents,
      FS.statD (finalM root ⟨force, t, g⟩ git) zc.1 = some (Entry.file zc.2)) ∧
    FS.statD (finalM root ⟨force, t, g⟩ git) ["package.json"] =
      some (Entry.file (packageJsonContent root)) := by
  cases g with
  | true =>
      cases t with
      | empty => exact ⟨fun zc hzc => by fin_cases hzc <;> rfl, rfl⟩
      | basic => exact ⟨fun zc hzc => by fin_cases hzc <;> rfl, rfl⟩
  | false =>
      cases git with
      | exitCode c =>
          cases t with
          | empty => exact ⟨fun zc hzc => by fin_cases hzc <;> rfl, rfl⟩
          | basic => exact ⟨fun zc hzc => by fin_cases hzc <;> rfl, rfl⟩
      | spawnError =>
          rcases hgit with h | h
          · exact absurd h (by simp)
          · exact absurd rfl h

/-! ## Claim C10: template- and invocation-independence of the fixed files -/

/-- C10: in any two successful `init` runs (any roots, templates, options),
the emitted manifest, HTML entry, source entry module, constants module,
formatting config, type/compile config and build config have the same fixed
contents — byte-identical across the two runs — while the package
descriptor's content is `packageJsonContent` of the respective root
argument, so among the fixed auxiliary files only it depends on the
invocation, and only through `root`. -/
theorem init_aux_determinism
    (fs1 : FS) (cwd1 : List String) (root1 : String) (f1 : Bool) (t1 : TemplateName)
    (g1 : Bool) (git1 : GitBehavior)
    (fs2 : FS) (cwd2 : List String) (root2 : String) (f2 : Bool) (t2 : TemplateName)
    (g2 : Bool) (git2 : GitBehavior)
    (h1f : ∀ q, joinPath cwd1 root1 <+: q → fs1.statD q = none)
    (h1a : dirFree fs1 (joinPath cwd1 root1))
    (h1g : g1 = true ∨ git1 ≠ GitBehavior.spawnError)
    (h2f : ∀ q, joinPath cwd2 root2 <+: q → fs2.statD q = none)
    (h2a : dirFree fs2 (joinPath cwd2 root2))
    (h2g : g2 = true ∨ git2 ≠ GitBehavior.spawnError) :
    ∃ s1 s2,
      initAction fs1 cwd1 root1 ⟨f1, t1, g1⟩ git1 = InitOutcome.done s1 ∧
      initAction fs2 cwd2 root2 ⟨f2, t2, g2⟩ git2 = InitOutcome.done s2 ∧
      (∀ zc ∈ auxFixedContents,
        FS.statD s1.fs (joinPath cwd1 root1 ++ zc.1) = some (Entry.file zc.2) ∧
        FS.statD s2.fs (joinPath cwd2 root2 ++ zc.1) = some (Entry.file zc.2)) ∧
      FS.statD s1.fs (joinPath cwd1 root1 ++ ["package.json"]) =
        some (Entry.file (packageJsonContent root1)) ∧
      FS.statD s2.fs (joinPath cwd2 root2 ++ ["package.json"]) =
        some (Entry.file (packageJsonContent root2)) := by
  obtain ⟨s1, hr1, hin1, -, -⟩ :=
    init_success_master fs1 cwd1 root1 ⟨f1, t1, g1⟩ git1 h1f h1a h1g
  obtain ⟨s2, hr2, hin2, -, -⟩ :=
    init_success_master fs2 cwd2 root2 ⟨f2, t2, g2⟩ git2 h2f h2a h2g
  obtain ⟨haux1, hpkg1⟩ := finalM_contents root1 f1 t1 g1 git1 h1g
  obtain ⟨haux2, hpkg2⟩ := finalM_contents root2 f2 t2 g2 git2 h2g
  exact ⟨s1, s2, hr1, hr2,
    fun zc hzc => ⟨by rw [hin1 zc.1]; exact haux1 zc hzc,
                   by rw [hin2 zc.1]; exact haux2 zc hzc⟩,
    by rw [hin1 ["package.json"]]; exact hpkg1,
    by rw [hin2 ["package.json"]]; exact hpkg2⟩

/-- C10 witness: two concrete runs with different roots, templates and
options. -/
theorem init_aux_determinism_witness :
    ∃ s1 s2,
      initAction [(["home"], Entry.dir)] ["home"] "one"
        ⟨false, TemplateName.basic, false⟩ (GitBehavior.exitCode 0) = InitOutcome.done s1 ∧
      initAction [(["lib"], Entry.dir)] ["lib"] "two"
        ⟨true, TemplateName.empty, true⟩ (GitBehavior.exitCode 7) = InitOutcome.done s2 ∧
      (∀ zc ∈ auxFixedContents,
        FS.statD s1.fs (joinPath ["home"] "one" ++ zc.1) = some (Entry.file zc.2) ∧
        FS.statD s2.fs (joinPath ["lib"] "two" ++ zc.1) = some (Entry.file zc.2)) ∧
      FS.statD s1.fs (joinPath ["home"] "one" ++ ["package.json"]) =
        some (Entry.file (packageJsonContent "one")) ∧
      FS.statD s2.fs (joinPath ["lib"] "two" ++ ["package.json"]) =
        some (Entry.file (packageJsonContent "two")) := by
  apply init_aux_determinism
  · intro q hq
    obtain ⟨u, rfl⟩ := hq
    rfl
  · intro q hq
    have hm : q ∈ (joinPath ["home"] "one").inits :=
      (List.mem_inits q (joinPath ["home"] "one")).mpr hq
    fin_cases hm <;> decide
  · exact Or.inr (by simp)
  · intro q hq
    obtain ⟨u, rfl⟩ := hq
    rfl
  · intro q hq
    have hm : q ∈ (joinPath ["lib"] "two").inits :=
      (List.mem_inits q (joinPath ["lib"] "two")).mpr hq
    fin_cases hm <;> decide
  · exact Or.inl rfl

/-! ## Claim C2: the declared package name -/

/-- C2 amended: the package descriptor written by `init` declares as its
name the raw `root` argument — not its base name — precisely when that
argument matches the package-name pattern, and the fixed fallback
`unnamed-game` otherwise; for slash-free roots argument and base name
coincide, and the spec's examples hold: `my-game` and `@scope/pkg` match,
`My Game` does not. -/
theorem packageName_from_root_arg (fs : FS) (cwd : List String) (root : String)
    (force : Bool) (t : TemplateName) (g : Bool) (git : GitBehavior)
    (hfresh : ∀ q, joinPath cwd root <+: q → fs.statD q = none)
    (hanc : dirFree fs (joinPath cwd root))
    (hgit : g = true ∨ git ≠ GitBehavior.spawnError) :
    ∃ s', initAction fs cwd root ⟨force, t, g⟩ git = InitOutcome.done s' ∧
      FS.statD s'.fs (joinPath cwd root ++ ["package.json"]) =
        some (Entry.file (packageJsonContent root)) ∧
      (packageNameTest root = true → packageNameOf root = root) ∧
      (packageNameTest root = false → packageNameOf root = "unnamed-game") ∧
      packageNameTest "my-game" = true ∧
      packageNameTest "My Game" = false ∧
      packageNameTest "@scope/pkg" = true := by
  obtain ⟨s', hr, hin, -, -⟩ :=
    init_success_master fs cwd root ⟨force, t, g⟩ git hfresh hanc hgit
  obtain ⟨-, hpkg⟩ := finalM_contents root force t g git hgit
  refine ⟨s', hr, by rw [hin ["package.json"]]; exact hpkg, ?_, ?_, by decide, by decide,
    by decide⟩
  · intro h
    unfold packageNameOf
    rw [if_pos h]
  · intro h
    unfold packageNameOf
    rw [if_neg (by rw [h]; simp)]

/-- C2 witness: a concrete run whose root argument matches the pattern. -/
theorem packageName_from_root_arg_witness :
    ∃ s', initAction [(["home"], Entry.dir)] ["home"] "my-game"
        ⟨false, TemplateName.basic, true⟩ (GitBehavior.exitCode 0) = InitOutcome.done s' ∧
      FS.statD s'.fs (joinPath ["home"] "my-game" ++ ["package.json"]) =
        some (Entry.file (packageJsonContent "my-game")) ∧
      (packageNameTest "my-game" = true → packageNameOf "my-game" = "my-game") ∧
      (packageNameTest "my-game" = false → packageNameOf "my-game" = "unnamed-game") ∧
      packageNameTest "my-game" = true ∧
      packageNameTest "My Game" = false ∧
      packageNameTest "@scope/pkg" = true := by
  apply packageName_from_root_arg
  · intro q hq
    obtain ⟨u, rfl⟩ := hq
    rfl
  · intro q hq
    have hm : q ∈ (joinPath ["home"] "my-game").inits :=
      (List.mem_inits q (joinPath ["home"] "my-game")).mpr hq
    fin_cases hm <;> decide
  · exact Or.inl rfl

/-- C2 counterexample: for the root argument `games/my-game`, whose base
name `my-game` matches the pattern, the code still writes the fallback name
(the regex is tested against the raw argument, not its base name). -/
theorem packageName_basename_cex :
    basenameOf "games/my-game" = "my-game" ∧
    packageNameTest (basenameOf "games/my-game") = true ∧
    (∃ s', initAction [(["home"], Entry.dir)] ["home"] "games/my-game"
        ⟨false, TemplateName.basic, true⟩ (GitBehavior.exitCode 0) = InitOutcome.done s' ∧
      FS.statD s'.fs ["home", "games", "my-game", "package.json"] =
        some (Entry.file (packageJsonContent "games/my-game"))) ∧
    packageNameOf "games/my-game" = "unnamed-game" ∧
    "unnamed-game" ≠ basenameOf "games/my-game" :=
  ⟨rfl, rfl, ⟨_, rfl, rfl⟩, rfl, by decide⟩

/-! ## Claim C1: behaviour around the external `git init` -/

lemma initScript_split (root : String) (f : Bool) (t : TemplateName) :
    initScript root ⟨f, t, false⟩ =
      preGit root t ++ (SStep.gitInit :: postGit root) := by
  cases t <;> rfl

lemma preGit_wf (root : String) (t : TemplateName) :
    stepsOkW (preGit root t) = true := by
  cases t <;> rfl

lemma scriptM_preGit (root : String) (t : TemplateName) (git : GitBehavior) :
    scriptM git [] (preGit root t) = some (preGitM root t) := by
  cases t <;> cases git <;> rfl

/-- C1 counterexample: a concrete fresh-root run in which the external
command exits with code 1 and the whole `init` nevertheless succeeds (the
exit status is ignored), and one in which the command fails to spawn, where
the run aborts with the ignore-file on disk but without the package
descriptor — so the claim's premise that all files are on disk when the
command runs, and that a non-zero exit propagates as a failure, are both
false on the code. -/
theorem init_git_failure_cex :
    (∃ s', initAction [(["home"], Entry.dir)] ["home"] "game"
        ⟨false, TemplateName.basic, false⟩ (GitBehavior.exitCode 1) = InitOutcome.done s')
  ∧ (∃ s', initAction [(["home"], Entry.dir)] ["home"] "game"
        ⟨false, TemplateName.basic, false⟩ GitBehavior.spawnError =
          InitOutcome.failed ErrKind.gitSpawn s' ∧
      FS.statD s'.fs ["home", "game", ".gitignore"] = some (Entry.file gitignoreContent) ∧
      FS.statD s'.fs ["home", "game", "package.json"] = none ∧
      FS.statD s'.fs ["home", "game", "tsconfig.json"] = none ∧
      FS.statD s'.fs ["home", "game", "vite.config.js"] = none) :=
  ⟨⟨_, rfl⟩, ⟨_, rfl, rfl, rfl, rfl, rfl⟩⟩

/-- C1 amended: with `nogit` unset, a spawn failure of `git init` aborts the
whole operation while a non-zero exit code does not; at the moment the
command runs the ignore-file and everything written before it (manifest,
template files, source entry, constants, HTML shell, formatting config) are
on disk and are not rolled back, but the package descriptor, type/compile
config and build config are not yet written. -/
theorem init_git_failure_timing (fs : FS) (cwd : List String) (root : String)
    (force : Bool) (t : TemplateName)
    (hfresh : ∀ q, joinPath cwd root <+: q → fs.statD q = none)
    (hanc : dirFree fs (joinPath cwd root)) :
    (∀ c, ∃ s', initAction fs cwd root ⟨force, t, false⟩ (GitBehavior.exitCode c) =
      InitOutcome.done s')
  ∧ (∃ s', initAction fs cwd root ⟨force, t, false⟩ GitBehavior.spawnError =
      InitOutcome.failed ErrKind.gitSpawn s' ∧
      FS.statD s'.fs (joinPath cwd root ++ [".gitignore"]) =
        some (Entry.file gitignoreContent) ∧
      FS.statD s'.fs (joinPath cwd root ++ ["public", "manifest.json"]) =
        some (Entry.file manifestContent) ∧
      FS.statD s'.fs (joinPath cwd root ++ ["package.json"]) = none ∧
      FS.statD s'.fs (joinPath cwd root ++ ["tsconfig.json"]) = none ∧
      FS.statD s'.fs (joinPath cwd root ++ ["vite.config.js"]) = none) := by
  constructor
  · intro c
    obtain ⟨s', hr, -, -, -⟩ := init_success_master fs cwd root ⟨force, t, false⟩
      (GitBehavior.exitCode c) hfresh hanc (Or.inr (by simp))
    exact ⟨s', hr⟩
  · have hprne : joinPath cwd root ≠ [] := by
      intro hh
      have h := hfresh (joinPath cwd root) (List.prefix_refl _)
      rw [hh] at h
      simp [FS.statD] at h
    obtain ⟨s1, hrun1, hout⟩ := makeFolders_root ⟨fs, []⟩ (joinPath cwd root) hanc
    have hSub : SubInv (joinPath cwd root) s1.fs [] s1 := by
      refine ⟨?_, fun q _ => rfl, hout.parentDir hprne⟩
      intro z
      cases z with
      | nil =>
          rw [List.append_nil]
          exact hout.rootDir
      | cons a zs =>
          have hz : (a :: zs) ≠ ([] : List String) := by simp
          have h1 : ¬ (joinPath cwd root ++ (a :: zs) <+: joinPath cwd root) :=
            not_append_prefix hz
          rw [hout.outside _ h1]
          show FS.statD fs (joinPath cwd root ++ a :: zs) = FS.statD ([] : FS) (a :: zs)
          rw [hfresh _ (List.prefix_append _ (a :: zs))]
          simp [FS.statD]
    obtain ⟨s2, hrun2, hInv2⟩ := runScript_ok GitBehavior.spawnError (joinPath cwd root)
      s1.fs (preGit root t) [] s1 hSub (preGit_wf root t) (preGitM root t)
      (scriptM_preGit root t GitBehavior.spawnError)
    refine ⟨s2, ?_, ?_, ?_, ?_, ?_, ?_⟩
    · unfold initAction
      rw [if_neg (by rw [hfresh _ (List.prefix_refl _)]; simp)]
      unfold scaffold
      rw [hrun1, except_bind_ok, initScript_split root force t,
        runScript_append GitBehavior.spawnError (joinPath cwd root) (preGit root t)
          (SStep.gitInit :: postGit root) s1,
        hrun2, except_bind_ok]
      simp only [runScript, runCommandM]
      rfl
    · rw [hInv2.1 [".gitignore"]]
      cases t <;> rfl
    · rw [hInv2.1 ["public", "manifest.json"]]
      cases t <;> rfl
    · rw [hInv2.1 ["package.json"]]
      cases t <;> rfl
    · rw [hInv2.1 ["tsconfig.json"]]
      cases t <;> rfl
    · rw [hInv2.1 ["vite.config.js"]]
      cases t <;> rfl

/-- C1 amended witness: concrete fresh root under an existing directory. -/
theorem init_git_failure_timing_witness :
    ((∀ c, ∃ s', initAction [(["home"], Entry.dir)] ["home"] "game"
        ⟨false, TemplateName.basic, false⟩ (GitBehavior.exitCode c) = InitOutcome.done s')
    ∧ (∃ s', initAction [(["home"], Entry.dir)] ["home"] "game"
        ⟨false, TemplateName.basic, false⟩ GitBehavior.spawnError =
          InitOutcome.failed ErrKind.gitSpawn s' ∧
        FS.statD s'.fs (joinPath ["home"] "game" ++ [".gitignore"]) =
          some (Entry.file gitignoreContent) ∧
        FS.statD s'.fs (joinPath ["home"] "game" ++ ["public", "manifest.json"]) =
          some (Entry.file manifestContent) ∧
        FS.statD s'.fs (joinPath ["home"] "game" ++ ["package.json"]) = none ∧
        FS.statD s'.fs (joinPath ["home"] "game" ++ ["tsconfig.json"]) = none ∧
        FS.statD s'.fs (joinPath ["home"] "game" ++ ["vite.config.js"]) = none)) := by
  apply init_git_failure_timing
  · intro q hq
    obtain ⟨u, rfl⟩ := hq
    rfl
  · intro q hq
    have hm : q ∈ (joinPath ["home"] "game").inits :=
      (List.mem_inits q (joinPath ["home"] "game")).mpr hq
    fin_cases hm <;> decide

/-! ## Path lemmas for the `add` command -/

lemma splitOnCharAux_no_sep (sep : Char) : ∀ (cs acc : List Char),
    (∀ ch ∈ cs, ch ≠ sep) → splitOnCharAux sep cs acc = [acc.reverse ++ cs] := by
  intro cs
  induction cs with
  | nil => intro acc _; simp [splitOnCharAux]
  | cons c rest ih =>
      intro acc h
      have hc : c ≠ sep := h c (List.mem_cons_self c rest)
      simp only [splitOnCharAux]
      rw [if_neg (by simp [hc])]
      rw [ih (c :: acc) (fun ch hch => h ch (List.mem_cons_of_mem c hch))]
      simp

lemma joinPath_plain (base : List String) (s : String)
    (hs : ∀ ch ∈ s.data, ch ≠ '/') (h0 : s ≠ "") (h1 : s ≠ ".") (h2 : s ≠ "..") :
    joinPath base s = base ++ [s] := by
  unfold joinPath splitSlash
  rw [splitOnCharAux_no_sep '/' s.data [] hs]
  show joinSeg base (String.mk ([].reverse ++ s.data)) = base ++ [s]
  rw [show String.mk ([].reverse ++ s.data) = s from by simp]
  unfold joinSeg
  rw [if_neg h0, if_neg h1, if_neg h2]

lemma ts_seg_plain (name : String) (hns : ∀ ch ∈ name.data, ch ≠ '/') :
    (∀ ch ∈ (name ++ ".ts").data, ch ≠ '/') ∧ (name ++ ".ts") ≠ "" ∧
    (name ++ ".ts") ≠ "." ∧ (name ++ ".ts") ≠ ".." := by
  have hdata : (name ++ ".ts").data = name.data ++ ['.', 't', 's'] := by
    rw [String.data_append]
  refine ⟨?_, ?_, ?_, ?_⟩
  · intro ch hch
    rw [hdata] at hch
    rcases List.mem_append.mp hch with h | h
    · exact hns ch h
    · simp only [List.mem_cons, List.not_mem_nil, or_false] at h
      rcases h with rfl | rfl | rfl <;> decide
  · intro hh
    have h := congrArg String.data hh
    rw [hdata] at h
    simp at h
  · intro hh
    have h := congrArg String.data hh
    rw [hdata] at h
    have hl := congrArg List.length h
    simp [List.length_append] at hl
  · intro hh
    have h := congrArg String.data hh
    rw [hdata] at h
    have hl := congrArg List.length h
    simp [List.length_append] at hl

lemma joinMany_pair (cwd : List String) :
    joinMany cwd ["src", "scenes"] = cwd ++ ["src", "scenes"] := by
  show joinPath (joinPath cwd "src") "scenes" = _
  rw [joinPath_plain cwd "src" (by decide) (by decide) (by decide) (by decide)]
  rw [joinPath_plain _ "scenes" (by decide) (by decide) (by decide) (by decide)]
  simp

lemma joinMany_kind_file (cwd : List String) (kind : String) (name : String)
    (hk1 : ∀ ch ∈ kind.data, ch ≠ '/') (hk2 : kind ≠ "") (hk3 : kind ≠ ".")
    (hk4 : kind ≠ "..") (hns : ∀ ch ∈ name.data, ch ≠ '/') :
    joinMany cwd ["src", kind, name ++ ".ts"] = cwd ++ ["src", kind, name ++ ".ts"] := by
  obtain ⟨p1, p2, p3, p4⟩ := ts_seg_plain name hns
  show joinPath (joinPath (joinPath cwd "src") kind) (name ++ ".ts") = _
  rw [joinPath_plain cwd "src" (by decide) (by decide) (by decide) (by decide)]
  rw [joinPath_plain _ kind hk1 hk2 hk3 hk4]
  rw [joinPath_plain _ _ p1 p2 p3 p4]
  simp

lemma makeFolders_noop2 (s : St) (d : List String)
    (hpar : (FS.statD s.fs d.dropLast).isSome = true)
    (hd : (FS.statD s.fs d).isSome = true) :
    makeFoldersM s d = .ok s := by
  unfold makeFoldersM
  cases hp : d.reverse with
  | nil => rfl
  | cons x xs =>
      have hdx : d = xs.reverse ++ [x] := by
        rw [← List.reverse_reverse d, hp, List.reverse_cons]
      have hxs : xs.reverse = d.dropLast := by rw [hdx, List.dropLast_concat]
      have h1 : (FS.statD s.fs xs.reverse).isSome = true := by rw [hxs]; exact hpar
      have h2 : (FS.statD s.fs (xs.reverse ++ [x])).isSome = true := by
        rw [← hdx]; exact hd
      rw [makeFoldersRev_cons, if_pos h1, except_bind_ok, if_pos h2]

lemma makeFolders_create_one (s : St) (d : List String) (x : String)
    (hd : FS.statD s.fs d = some Entry.dir)
    (hmiss : FS.statD s.fs (d ++ [x]) = none) :
    makeFoldersM s (d ++ [x]) =
      .ok ⟨(d ++ [x], Entry.dir) :: s.fs, s.tr ++ [Ev.mkdirE (d ++ [x])]⟩ := by
  unfold makeFoldersM
  rw [show (d ++ [x]).reverse = x :: d.reverse from by
    rw [List.reverse_append]; rfl]
  rw [makeFoldersRev_cons]
  rw [if_pos (by rw [List.reverse_reverse, hd]; rfl), except_bind_ok]
  rw [List.reverse_reverse]
  rw [if_neg (by rw [hmiss]; simp)]
  simp only [mkdirOp, hmiss, List.dropLast_concat, hd]

lemma writeFile_ok (s : St) (p : List String) (c : String)
    (hpar : FS.statD s.fs p.dropLast = some Entry.dir)
    (ht : FS.statD s.fs p ≠ some Entry.dir) :
    writeFileOp s p c = .ok ⟨(p, Entry.file c) :: s.fs, s.tr ++ [Ev.writeE p c]⟩ := by
  unfold writeFileOp
  rw [hpar]
  cases htgt : FS.statD s.fs p with
  | none => rfl
  | some e =>
      cases e with
      | dir => exact absurd htgt ht
      | file c2 => rfl

/-! ## Claims C3 and C9: the `add` command -/

/-- C3 counterexample: `add scene big-boss-fight` inside a project writes the
stub with identifier `bigBoss-fight` — the replacement regex has no global
flag, so only the first hyphen-letter pair is camel-cased, not every one. -/
theorem addUnit_camelcase_cex :
    (∃ s', addAction [(["src"], Entry.dir), (["src", "scenes"], Entry.dir)] [] "scene"
        "big-boss-fight" = AddOutcome.done s' ∧
      FS.statD s'.fs ["src", "scenes", "big-boss-fight.ts"] =
        some (Entry.file (sceneStub "bigBoss-fight"))) ∧
    normalizeName "big-boss-fight" = "bigBoss-fight" ∧
    sceneStub "bigBoss-fight" ≠ sceneStub "bigBossFight" :=
  ⟨⟨_, rfl, rfl⟩, rfl, by decide⟩

/-- C3 amended: `add scene` keeps the raw `name` in the created file's path
and derives the interpolated identifier by camel-casing only the first
hyphen-letter occurrence of `name`: `boss-fight` becomes `bossFight` (so the
single-hyphen example of the spec holds), while `big-boss-fight` becomes
`bigBoss-fight`. -/
theorem addUnit_first_hyphen_camelcase (fs : FS) (cwd : List String) (name : String)
    (hscenes : FS.statD fs (cwd ++ ["src", "scenes"]) = some Entry.dir)
    (hsrc : (FS.statD fs (cwd ++ ["src"])).isSome = true)
    (hname : ∀ ch ∈ name.data, ch ≠ '/')
    (hfile : FS.statD fs (cwd ++ ["src", "scenes", name ++ ".ts"]) = none) :
    (∃ s', addAction fs cwd "scene" name = AddOutcome.done s' ∧
      FS.statD s'.fs (cwd ++ ["src", "scenes", name ++ ".ts"]) =
        some (Entry.file (sceneStub (normalizeName name)))) ∧
    normalizeName "boss-fight" = "bossFight" ∧
    sceneStub "bossFight" = "export default function bossFight() \x7b\n    \n\x7d" ∧
    normalizeName "big-boss-fight" = "bigBoss-fight" := by
  refine ⟨?_, rfl, rfl, rfl⟩
  have hdrop : (cwd ++ ["src", "scenes", name ++ ".ts"]).dropLast =
      cwd ++ ["src", "scenes"] := by
    rw [List.dropLast_append_of_ne_nil cwd (by simp)]
    rfl
  unfold addAction
  rw [if_neg (by decide)]
  rw [joinMany_pair cwd]
  rw [if_neg (by rw [hscenes]; simp)]
  rw [if_pos (by decide)]
  rw [joinMany_kind_file cwd "scenes" name (by decide) (by decide) (by decide)
    (by decide) hname]
  unfold makeFileM
  rw [hdrop]
  rw [makeFolders_noop2 ⟨fs, []⟩ (cwd ++ ["src", "scenes"])
    (by rw [List.dropLast_append_of_ne_nil cwd (by simp)]
        show (FS.statD fs (cwd ++ ["src"])).isSome = true
        exact hsrc)
    (by rw [hscenes]; rfl), except_bind_ok]
  rw [writeFile_ok ⟨fs, []⟩ (cwd ++ ["src", "scenes", name ++ ".ts"])
    (sceneStub (normalizeName name))
    (by rw [hdrop]; exact hscenes)
    (by rw [hfile]; simp)]
  refine ⟨_, rfl, ?_⟩
  show FS.statD ((cwd ++ ["src", "scenes", name ++ ".ts"],
    Entry.file (sceneStub (normalizeName name))) :: fs)
    (cwd ++ ["src", "scenes", name ++ ".ts"]) = _
  rw [statD_cons _ _ _ _ (append_ne_nil_left (by simp)), if_pos rfl]

/-- C3 amended witness: `add scene boss-fight` in a concrete project. -/
theorem addUnit_first_hyphen_camelcase_witness :
    (∃ s', addAction [(["src"], Entry.dir), (["src", "scenes"], Entry.dir)] [] "scene"
        "boss-fight" = AddOutcome.done s' ∧
      FS.statD s'.fs ([] ++ ["src", "scenes", "boss-fight" ++ ".ts"]) =
        some (Entry.file (sceneStub (normalizeName "boss-fight")))) ∧
    normalizeName "boss-fight" = "bossFight" ∧
    sceneStub "bossFight" = "export default function bossFight() \x7b\n    \n\x7d" ∧
    normalizeName "big-boss-fight" = "bigBoss-fight" :=
  addUnit_first_hyphen_camelcase [(["src"], Entry.dir), (["src", "scenes"], Entry.dir)]
    [] "boss-fight" (by rfl) (by rfl) (by decide) (by rfl)

/-- C9: the recognizable-project check of `add` inspects only `src/scenes`:
for kind `object` or `component`, when `src/scenes` is present but the
matching kind subdirectory is absent, `add` does not fail — it creates the
missing directory and writes the stub file into it. -/
theorem addUnit_creates_missing_kind_dir (fs : FS) (cwd : List String) (name : String)
    (cap : String)
    (hscenes : (FS.statD fs (cwd ++ ["src", "scenes"])).isSome = true)
    (hsrc : FS.statD fs (cwd ++ ["src"]) = some Entry.dir)
    (hname : ∀ ch ∈ name.data, ch ≠ '/')
    (hcap : capitalize (normalizeName name) = some cap)
    (hobj : FS.statD fs (cwd ++ ["src", "objects"]) = none)
    (hobjf : FS.statD fs (cwd ++ ["src", "objects", name ++ ".ts"]) = none)
    (hcomp : FS.statD fs (cwd ++ ["src", "components"]) = none)
    (hcompf : FS.statD fs (cwd ++ ["src", "components", name ++ ".ts"]) = none) :
    (∃ s', addAction fs cwd "object" name = AddOutcome.done s' ∧
      FS.statD s'.fs (cwd ++ ["src", "objects"]) = some Entry.dir ∧
      FS.statD s'.fs (cwd ++ ["src", "objects", name ++ ".ts"]) =
        some (Entry.file (objectStub (normalizeName name))))
  ∧ (∃ s', addAction fs cwd "component" name = AddOutcome.done s' ∧
      FS.statD s'.fs (cwd ++ ["src", "components"]) = some Entry.dir ∧
      FS.statD s'.fs (cwd ++ ["src", "components", name ++ ".ts"]) =
        some (Entry.file (componentStub (normalizeName name) name cap))) := by
  have hgo : ∀ (kind : String), (∀ ch ∈ kind.data, ch ≠ '/') → kind ≠ "" → kind ≠ "." →
      kind ≠ ".." →
      FS.statD fs (cwd ++ ["src", kind]) = none →
      FS.statD fs (cwd ++ ["src", kind, name ++ ".ts"]) = none →
      ∀ (stub : String),
      ∃ s', makeFileM ⟨fs, []⟩ (joinMany cwd ["src", kind, name ++ ".ts"]) stub = .ok s' ∧
        FS.statD s'.fs (cwd ++ ["src", kind]) = some Entry.dir ∧
        FS.statD s'.fs (cwd ++ ["src", kind, name ++ ".ts"]) =
          some (Entry.file stub) := by
    intro kind hk1 hk2 hk3 hk4 hkmiss hkfile stub
    have hassoc : cwd ++ ["src", kind] = (cwd ++ ["src"]) ++ [kind] := by simp
    have hdrop : (cwd ++ ["src", kind, name ++ ".ts"]).dropLast =
        cwd ++ ["src", kind] := by
      rw [List.dropLast_append_of_ne_nil cwd (by simp)]
      rfl
    have hne1 : cwd ++ ["src", kind, name ++ ".ts"] ≠ cwd ++ ["src", kind] := by
      intro h
      have h2 := List.append_cancel_left h
      simp at h2
    have hknil : cwd ++ ["src", kind] ≠ [] := append_ne_nil_left (by simp)
    have htnil : cwd ++ ["src", kind, name ++ ".ts"] ≠ [] :=
      append_ne_nil_left (by simp)
    have hmf : makeFoldersM ⟨fs, []⟩ (cwd ++ ["src", kind]) =
        .ok ⟨(cwd ++ ["src", kind], Entry.dir) :: fs,
          [Ev.mkdirE (cwd ++ ["src", kind])]⟩ := by
      rw [hassoc]
      rw [makeFolders_create_one ⟨fs, []⟩ (cwd ++ ["src"]) kind hsrc
        (by rw [← hassoc]; exact hkmiss)]
      rfl
    have hwf : writeFileOp
        ⟨(cwd ++ ["src", kind], Entry.dir) :: fs, [Ev.mkdirE (cwd ++ ["src", kind])]⟩
        (cwd ++ ["src", kind, name ++ ".ts"]) stub =
        .ok ⟨(cwd ++ ["src", kind, name ++ ".ts"], Entry.file stub) ::
              (cwd ++ ["src", kind], Entry.dir) :: fs,
            [Ev.mkdirE (cwd ++ ["src", kind]),
             Ev.writeE (cwd ++ ["src", kind, name ++ ".ts"]) stub]⟩ := by
      rw [writeFile_ok _ _ _
        (by
          show FS.statD ((cwd ++ ["src", kind], Entry.dir) :: fs)
            ((cwd ++ ["src", kind, name ++ ".ts"]).dropLast) = some Entry.dir
          rw [hdrop, statD_cons _ _ _ _ hknil, if_pos rfl])
        (by
          show FS.statD ((cwd ++ ["src", kind], Entry.dir) :: fs)
            (cwd ++ ["src", kind, name ++ ".ts"]) ≠ some Entry.dir
          rw [statD_cons _ _ _ _ hknil, if_neg hne1, hkfile]
          simp)]
      rfl
    rw [joinMany_kind_file cwd kind name hk1 hk2 hk3 hk4 hname]
    unfold makeFileM
    rw [hdrop, hmf, except_bind_ok, hwf]
    refine ⟨_, rfl, ?_, ?_⟩
    · show FS.statD ((cwd ++ ["src", kind, name ++ ".ts"], Entry.file stub) ::
        (cwd ++ ["src", kind], Entry.dir) :: fs) (cwd ++ ["src", kind]) = _
      rw [statD_cons _ _ _ _ htnil, if_neg (fun h => hne1 h.symm),
        statD_cons _ _ _ _ hknil, if_pos rfl]
    · show FS.statD ((cwd ++ ["src", kind, name ++ ".ts"], Entry.file stub) ::
        (cwd ++ ["src", kind], Entry.dir) :: fs)
        (cwd ++ ["src", kind, name ++ ".ts"]) = _
      rw [statD_cons _ _ _ _ htnil, if_pos rfl]
  constructor
  · obtain ⟨s', h1, h2, h3⟩ := hgo "objects" (by decide) (by decide) (by decide)
      (by decide) hobj hobjf (objectStub (normalizeName name))
    refine ⟨s', ?_, h2, h3⟩
    unfold addAction
    rw [if_neg (by decide)]
    rw [joinMany_pair cwd]
    rw [if_neg (by simp [hscenes])]
    rw [if_neg (by decide), if_pos (by decide)]
    rw [h1]
    rfl
  · obtain ⟨s', h1, h2, h3⟩ := hgo "components" (by decide) (by decide) (by decide)
      (by decide) hcomp hcompf (componentStub (normalizeName name) name cap)
    refine ⟨s', ?_, h2, h3⟩
    unfold addAction
    rw [if_neg (by decide)]
    rw [joinMany_pair cwd]
    rw [if_neg (by simp [hscenes])]
    rw [if_neg (by decide), if_neg (by decide)]
    rw [hcap]
    show finishAdd (makeFileM ⟨fs, []⟩ (joinMany cwd ["src", "components", name ++ ".ts"])
      (componentStub (normalizeName name) name cap)) = AddOutcome.done s'
    rw [h1]
    rfl

/-- C9 witness: `add object hp-bar` and `add component hp-bar` in a concrete
project that has `src/scenes` but neither `src/objects` nor `src/components`. -/
theorem addUnit_creates_missing_kind_dir_witness :
    (∃ s', addAction [(["src"], Entry.dir), (["src", "scenes"], Entry.dir)] [] "object"
        "hp-bar" = AddOutcome.done s' ∧
      FS.statD s'.fs ([] ++ ["src", "objects"]) = some Entry.dir ∧
      FS.statD s'.fs ([] ++ ["src", "objects", "hp-bar" ++ ".ts"]) =
        some (Entry.file (objectStub (normalizeName "hp-bar"))))
  ∧ (∃ s', addAction [(["src"], Entry.dir), (["src", "scenes"], Entry.dir)] [] "component"
        "hp-bar" = AddOutcome.done s' ∧
      FS.statD s'.fs ([] ++ ["src", "components"]) = some Entry.dir ∧
      FS.statD s'.fs ([] ++ ["src", "components", "hp-bar" ++ ".ts"]) =
        some (Entry.file (componentStub (normalizeName "hp-bar") "hp-bar" "Hpbar"))) :=
  addUnit_creates_missing_kind_dir [(["src"], Entry.dir), (["src", "scenes"], Entry.dir)]
    [] "hp-bar" "Hpbar" (by rfl) (by rfl) (by decide) (by rfl) (by rfl) (by rfl)
    (by rfl) (by rfl)

/-! ## Claim C8: where the writes of `init` land -/

lemma mkdirOp_trace (s : St) (p : List String) :
    ∃ Δ, (resSt (mkdirOp s p)).tr = s.tr ++ Δ ∧ ∀ e ∈ Δ, e = Ev.mkdirE p := by
  unfold mkdirOp
  cases h1 : FS.statD s.fs p with
  | some e => exact ⟨[], by simp [resSt], by simp⟩
  | none =>
      cases h2 : FS.statD s.fs p.dropLast with
      | none => exact ⟨[], by simp [resSt], by simp⟩
      | some e =>
          cases e with
          | dir => exact ⟨[Ev.mkdirE p], by simp [resSt], by simp⟩
          | file c => exact ⟨[], by simp [resSt], by simp⟩

lemma writeFileOp_trace (s : St) (p : List String) (c : String) :
    ∃ Δ, (resSt (writeFileOp s p c)).tr = s.tr ++ Δ ∧ ∀ e ∈ Δ, e = Ev.writeE p c := by
  unfold writeFileOp
  cases h1 : FS.statD s.fs p.dropLast with
  | none => exact ⟨[], by simp [resSt], by simp⟩
  | some e =>
      cases e with
      | file c2 => exact ⟨[], by simp [resSt], by simp⟩
      | dir =>
          cases h2 : FS.statD s.fs p with
          | none => exact ⟨[Ev.writeE p c], by simp [resSt], by simp⟩
          | some e2 =>
              cases e2 with
              | dir => exact ⟨[], by simp [resSt], by simp⟩
              | file c3 => exact ⟨[Ev.writeE p c], by simp [resSt], by simp⟩

lemma makeFoldersRev_trace : ∀ (r : List String) (s : St), ∃ Δ,
    (resSt (makeFoldersRev s r)).tr = s.tr ++ Δ ∧
    ∀ e ∈ Δ, ∃ q, q <+: r.reverse ∧ e = Ev.mkdirE q := by
  intro r
  induction r with
  | nil => intro s; exact ⟨[], by simp [makeFoldersRev, resSt], by simp⟩
  | cons x xs ih =>
      intro s
      rw [makeFoldersRev_cons]
      have hpref : ∀ q, q <+: xs.reverse → q <+: (x :: xs).reverse := by
        intro q hq
        rw [List.reverse_cons]
        exact hq.trans (List.prefix_append xs.reverse [x])
      have hself : (xs.reverse ++ [x]) <+: (x :: xs).reverse := by
        rw [List.reverse_cons]
      by_cases h : (FS.statD s.fs xs.reverse).isSome = true
      · rw [if_pos h, except_bind_ok]
        by_cases h2 : (FS.statD s.fs (xs.reverse ++ [x])).isSome = true
        · rw [if_pos h2]
          exact ⟨[], by simp [resSt], by simp⟩
        · rw [if_neg h2]
          obtain ⟨Δ, hΔ, hall⟩ := mkdirOp_trace s (xs.reverse ++ [x])
          exact ⟨Δ, hΔ, fun e he => ⟨xs.reverse ++ [x], hself, hall e he⟩⟩
      · rw [if_neg h]
        cases hrec : makeFoldersRev s xs with
        | error es =>
            obtain ⟨Δ, hΔ, hall⟩ := ih s
            rw [hrec] at hΔ
            rw [except_bind_err]
            refine ⟨Δ, hΔ, fun e he => ?_⟩
            obtain ⟨q, hq1, hq2⟩ := hall e he
            exact ⟨q, hpref q hq1, hq2⟩
        | ok s1 =>
            obtain ⟨Δ1, hΔ1, hall1⟩ := ih s
            rw [hrec] at hΔ1
            simp only [resSt] at hΔ1
            rw [except_bind_ok]
            by_cases h2 : (FS.statD s1.fs (xs.reverse ++ [x])).isSome = true
            · rw [if_pos h2]
              refine ⟨Δ1, by simp only [resSt]; exact hΔ1, fun e he => ?_⟩
              obtain ⟨q, hq1, hq2⟩ := hall1 e he
              exact ⟨q, hpref q hq1, hq2⟩
            · rw [if_neg h2]
              obtain ⟨Δ2, hΔ2, hall2⟩ := mkdirOp_trace s1 (xs.reverse ++ [x])
              refine ⟨Δ1 ++ Δ2, by rw [hΔ2, hΔ1, List.append_assoc], fun e he => ?_⟩
              rcases List.mem_append.mp he with h3 | h3
              · obtain ⟨q, hq1, hq2⟩ := hall1 e h3
                exact ⟨q, hpref q hq1, hq2⟩
              · exact ⟨xs.reverse ++ [x], hself, hall2 e h3⟩

lemma makeFoldersM_trace (s : St) (p : List String) : ∃ Δ,
    (resSt (makeFoldersM s p)).tr = s.tr ++ Δ ∧
    ∀ e ∈ Δ, ∃ q, q <+: p ∧ e = Ev.mkdirE q := by
  obtain ⟨Δ, hΔ, hall⟩ := makeFoldersRev_trace p.reverse s
  rw [List.reverse_reverse] at hall
  exact ⟨Δ, hΔ, hall⟩

lemma makeFileM_trace (s : St) (p : List String) (c : String) : ∃ Δ,
    (resSt (makeFileM s p c)).tr = s.tr ++ Δ ∧
    ∀ e ∈ Δ, (∃ q, q <+: p.dropLast ∧ e = Ev.mkdirE q) ∨ e = Ev.writeE p c := by
  unfold makeFileM
  obtain ⟨Δ1, hΔ1, hall1⟩ := makeFoldersM_trace s p.dropLast
  cases hmf : makeFoldersM s p.dropLast with
  | error es =>
      rw [hmf] at hΔ1
      rw [except_bind_err]
      exact ⟨Δ1, hΔ1, fun e he => Or.inl (hall1 e he)⟩
  | ok s1 =>
      rw [hmf] at hΔ1
      simp only [resSt] at hΔ1
      rw [except_bind_ok]
      obtain ⟨Δ2, hΔ2, hall2⟩ := writeFileOp_trace s1 p c
      refine ⟨Δ1 ++ Δ2, by rw [hΔ2, hΔ1, List.append_assoc], fun e he => ?_⟩
      rcases List.mem_append.mp he with h3 | h3
      · exact Or.inl (hall1 e h3)
      · exact Or.inr (hall2 e h3)

lemma runScript_trace (git : GitBehavior) (base : List String) :
    ∀ (steps : List SStep) (s : St), stepsOkW steps = true → ∃ Δ,
      (resSt (runScript git base s steps)).tr = s.tr ++ Δ ∧
      ∀ e ∈ Δ, WithinRoot base e := by
  intro steps
  induction steps with
  | nil => intro s _; exact ⟨[], by simp [runScript, resSt], by simp⟩
  | cons step rest ih =>
      intro s hwf
      cases step with
      | mkTree y =>
          obtain ⟨Δ1, hΔ1, hall1⟩ := makeFoldersM_trace s (base ++ y)
          simp only [runScript]
          cases hmf : makeFoldersM s (base ++ y) with
          | error es =>
              rw [hmf] at hΔ1
              rw [except_bind_err]
              refine ⟨Δ1, hΔ1, fun e he => ?_⟩
              obtain ⟨q, hq1, hq2⟩ := hall1 e he
              subst hq2
              exact prefix_cases_of_prefix_append hq1
          | ok s1 =>
              rw [hmf] at hΔ1
              simp only [resSt] at hΔ1
              rw [except_bind_ok]
              obtain ⟨Δ2, hΔ2, hall2⟩ := ih s1 hwf
              refine ⟨Δ1 ++ Δ2, by rw [hΔ2, hΔ1, List.append_assoc], fun e he => ?_⟩
              rcases List.mem_append.mp he with h3 | h3
              · obtain ⟨q, hq1, hq2⟩ := hall1 e h3
                subst hq2
                exact prefix_cases_of_prefix_append hq1
              · exact hall2 e h3
      | putFile y c =>
          have hy : y ≠ [] := by
            intro hnil
            rw [hnil] at hwf
            simp [stepsOkW] at hwf
          have hwr : stepsOkW rest = true := by
            have h := hwf
            simp only [stepsOkW, Bool.and_eq_true] at h
            exact h.2
          have hdl : (base ++ y).dropLast = base ++ y.dropLast :=
            List.dropLast_append_of_ne_nil base hy
          obtain ⟨Δ1, hΔ1, hall1⟩ := makeFileM_trace s (base ++ y) c
          simp only [runScript]
          cases hmf : makeFileM s (base ++ y) c with
          | error es =>
              rw [hmf] at hΔ1
              rw [except_bind_err]
              refine ⟨Δ1, hΔ1, fun e he => ?_⟩
              rcases hall1 e he with ⟨q, hq1, hq2⟩ | hq2
              · subst hq2
                rw [hdl] at hq1
                exact prefix_cases_of_prefix_append hq1
              · subst hq2
                exact ⟨y, hy, rfl⟩
          | ok s1 =>
              rw [hmf] at hΔ1
              simp only [resSt] at hΔ1
              rw [except_bind_ok]
              obtain ⟨Δ2, hΔ2, hall2⟩ := ih s1 hwr
              refine ⟨Δ1 ++ Δ2, by rw [hΔ2, hΔ1, List.append_assoc], fun e he => ?_⟩
              rcases List.mem_append.mp he with h3 | h3
              · rcases hall1 e h3 with ⟨q, hq1, hq2⟩ | hq2
                · subst hq2
                  rw [hdl] at hq1
                  exact prefix_cases_of_prefix_append hq1
                · subst hq2
                  exact ⟨y, hy, rfl⟩
              · exact hall2 e h3
      | gitInit =>
          have hwr : stepsOkW rest = true := hwf
          simp only [runScript]
          cases git with
          | exitCode cde =>
              simp only [runCommandM]
              exact ih s hwr
          | spawnError =>
              simp only [runCommandM]
              exact ⟨[], by simp [resSt], by simp⟩

lemma scaffold_trace (git : GitBehavior) (pr : List String) (root : String)
    (opts : InitOpts) (s : St) :
    ∀ e ∈ (resSt (scaffold git pr root opts s)).tr,
      e ∈ s.tr ∨ WithinRoot pr e := by
  unfold scaffold
  obtain ⟨Δ1, hΔ1, hall1⟩ := makeFoldersM_trace s pr
  cases hmf : makeFoldersM s pr with
  | error es =>
      rw [hmf] at hΔ1
      rw [except_bind_err]
      intro e he
      rw [hΔ1] at he
      rcases List.mem_append.mp he with h | h
      · exact Or.inl h
      · obtain ⟨q, hq1, hq2⟩ := hall1 e h
        subst hq2
        exact Or.inr (Or.inl hq1)
  | ok s1 =>
      rw [hmf] at hΔ1
      simp only [resSt] at hΔ1
      rw [except_bind_ok]
      obtain ⟨Δ2, hΔ2, hall2⟩ :=
        runScript_trace git pr (initScript root opts) s1 (initScript_wf root opts)
      intro e he
      rw [hΔ2, hΔ1] at he
      rcases List.mem_append.mp he with h | h
      · rcases List.mem_append.mp h with h' | h'
        · exact Or.inl h'
        · obtain ⟨q, hq1, hq2⟩ := hall1 e h'
          subst hq2
          exact Or.inr (Or.inl hq1)
      · exact Or.inr (hall2 e h)

lemma outSt_finishInit (m : FsM) : outSt (finishInit m) = resSt m := by
  cases m with
  | ok s => rfl
  | error es =>
      obtain ⟨k, s⟩ := es
      rfl

/-- C8 counterexample: with current directory `home` and root argument
`a/b`, the resolved project root is `home/a/b`, and the run creates the
directory `home/a`, which is not the project root nor a descendant of it —
an ancestor outside the root subtree is written. -/
theorem init_write_escape_cex :
    joinPath ["home"] "a/b" = ["home", "a", "b"] ∧
    Ev.mkdirE ["home", "a"] ∈
      (outSt (initAction [] ["home"] "a/b" ⟨false, TemplateName.empty, true⟩
        (GitBehavior.exitCode 0))).tr ∧
    ¬ (["home", "a", "b"] <+: ["home", "a"]) :=
  ⟨rfl, by decide, by decide⟩

/-- C8 amended: in every `init` run (any filesystem, arguments, options and
git behaviour, any outcome), every directory-creation event lies on the
resolved project root's own ancestor chain or inside its subtree, and every
file-write event lies strictly inside the subtree.  Writes can land outside
the root only as ancestor directories created by the `makeFolders` walk when
the root argument contains a separator. -/
theorem init_writes_within_root (fs : FS) (cwd : List String) (root : String)
    (opts : InitOpts) (git : GitBehavior) :
    ∀ e ∈ (outSt (initAction fs cwd root opts git)).tr,
      WithinRoot (joinPath cwd root) e := by
  intro e he
  simp only [initAction] at he
  by_cases h1 : (FS.statD fs (joinPath cwd root)).isSome = true
  · rw [if_pos h1] at he
    by_cases h2 : opts.force = false
    · rw [if_pos h2] at he
      exact absurd he (List.not_mem_nil e)
    · rw [if_neg h2, outSt_finishInit] at he
      rcases scaffold_trace git (joinPath cwd root) root opts
        ⟨FS.rmAll fs (joinPath cwd root), []⟩ e he with h | h
      · exact absurd h (List.not_mem_nil e)
      · exact h
  · rw [if_neg h1, outSt_finishInit] at he
    rcases scaffold_trace git (joinPath cwd root) root opts ⟨fs, []⟩ e he with h | h
    · exact absurd h (List.not_mem_nil e)
    · exact h

/-- C8 amended witness: the first event of a concrete fresh run is the
creation of the root itself. -/
theorem init_writes_within_root_witness :
    WithinRoot (joinPath [] "proj") (Ev.mkdirE ["proj"]) :=
  init_writes_within_root [] [] "proj" ⟨false, TemplateName.empty, true⟩
    (GitBehavior.exitCode 0) (Ev.mkdirE ["proj"]) (by decide)

end Kaboomer
